import Mathlib

/-!
Verification of the huey task-queue core (`huey/api.py`) via a shallow
embedding.  Python values are modelled by `PyVal`, Python strings by
`String` (or `List Char` inside the cron matcher), the broker's key-value
store by an association list, and the dispatcher's effectful methods by
state-passing functions.  The serializer is modelled as the identity on
`PyVal` (it is an external collaborator whose contract is round-trip
equality), and wall-clock timestamps are modelled by `Int`.
-/

namespace HueySpec


/-- Model of a Python value as it flows through the dispatcher: task
arguments, return values, stored results, revocation records and error
records.  `errorRec` models a `huey.utils.Error` wrapper holding the
metadata dict `{error, retries, traceback}`. -/
inductive PyVal where
  | none
  | bool (b : Bool)
  | int (n : Int)
  | str (s : String)
  | tuple (vs : List PyVal)
  | dict (kvs : List (String × PyVal))
  | exc (name : String) (msg : String)
  | errorRec (error : String) (retries : Nat) (traceback : String)

/-- Repr of an exception object, as stored in the error record
(`repr(exception)` in `Huey._execute`). -/
def pyRepr : PyVal → String
  | .exc name msg => name ++ "('" ++ msg ++ "')"
  | .none => "None"
  | .bool b => toString b
  | .int n => toString n
  | .str s => s
  | .tuple _ => "(...)"
  | .dict _ => "{...}"
  | .errorRec e _ _ => e

/-- Placeholder for `traceback.format_exc()`; its content is irrelevant to
the dispatcher's control flow. -/
def tbText : String := "<traceback>"

/-- Model of a `Task` instance (`huey.api.Task`): identity, class name,
arguments, schedule and retry metadata, and the two continuation links.
`isPeriodic` marks instances of the `PeriodicTask` subclass. -/
inductive Task where
  | mk (name : String) (id : String) (args : List PyVal)
       (kwargs : List (String × PyVal)) (eta : Option Int)
       (retries : Nat) (retryDelay : Nat)
       (onComplete : Option Task) (onError : Option Task)
       (isPeriodic : Bool)

def Task.name : Task → String | .mk n _ _ _ _ _ _ _ _ _ => n

def Task.id : Task → String | .mk _ i _ _ _ _ _ _ _ _ => i

def Task.args : Task → List PyVal | .mk _ _ a _ _ _ _ _ _ _ => a

def Task.kwargs : Task → List (String × PyVal) | .mk _ _ _ k _ _ _ _ _ _ => k

def Task.eta : Task → Option Int | .mk _ _ _ _ e _ _ _ _ _ => e

def Task.retries : Task → Nat | .mk _ _ _ _ _ r _ _ _ _ => r

def Task.retryDelay : Task → Nat | .mk _ _ _ _ _ _ d _ _ _ => d

def Task.onComplete : Task → Option Task | .mk _ _ _ _ _ _ _ c _ _ => c

def Task.onError : Task → Option Task | .mk _ _ _ _ _ _ _ _ e _ => e

def Task.isPeriodic : Task → Bool | .mk _ _ _ _ _ _ _ _ _ p => p

def Task.withRetries : Task → Nat → Task
  | .mk n i a k e _ d c er p, r => .mk n i a k e r d c er p

def Task.withEta : Task → Option Int → Task
  | .mk n i a k _ r d c er p, e => .mk n i a k e r d c er p

def Task.withArgs : Task → List PyVal → Task
  | .mk n i _ k e r d c er p, a => .mk n i a k e r d c er p

def Task.withKwargs : Task → List (String × PyVal) → Task
  | .mk n i a _ e r d c er p, k => .mk n i a k e r d c er p

/-- Derived attribute `Task.revoke_id`, the sentinel `"r:" + id`. -/
def Task.revokeId (t : Task) : String := "r:" ++ t.id

/-- Class-level revocation key built by `Huey._task_key(cls, 'rt')`,
i.e. `"rt:" + class-name`. -/
def classRevokeKey (name : String) : String := "rt:" ++ name

/-- Python `dict.setdefault(key, value)` on an association-list model of a
kwargs dict: insert only when the key is absent. -/
def setdefault (kvs : List (String × PyVal)) (k : String) (v : PyVal) :
    List (String × PyVal) :=
  if (kvs.lookup k).isSome then kvs else kvs ++ [(k, v)]

/-- Translation of `Task.extend_data`: `None` and the empty tuple add
nothing; a tuple is appended to the positional args; a mapping is merged
into kwargs via `setdefault`; any other value is appended to args as a
single element. -/
def Task.extendData (t : Task) (data : PyVal) : Task :=
  match data with
  | .none => t
  | .tuple [] => t
  | .tuple vs => t.withArgs (t.args ++ vs)
  | .dict kvs => t.withKwargs (kvs.foldl (fun acc p => setdefault acc p.1 p.2) t.kwargs)
  | d => t.withArgs (t.args ++ [d])

/-! ### The broker's key-value store, modelled as an association list. -/

def kvGet : List (String × PyVal) → String → Option PyVal
  | [], _ => Option.none
  | (k, v) :: rest, key => if k = key then some v else kvGet rest key

/-- Effect of `put_data`: store under a key, overwriting any previous
binding. -/
def kvPut : List (String × PyVal) → String → PyVal → List (String × PyVal)
  | [], key, v => [(key, v)]
  | (k, w) :: rest, key, v =>
      if k = key then (key, v) :: rest else (k, w) :: kvPut rest key v

/-- Effect of `pop_data` on the store: removal of a key. -/
def kvDel : List (String × PyVal) → String → List (String × PyVal)
  | [], _ => []
  | (k, v) :: rest, key =>
      if k = key then kvDel rest key else (k, v) :: kvDel rest key

/-! ### Dispatcher state and observable events. -/

/-- Observable events of a dispatcher run: emitted signals, writes to the
result store, and invocations of a task body.  `fuelOut` marks exhaustion
of the step budget of the model (never reached in the theorems below). -/
inductive Event where
  | sig (name : String) (id : String)
  | put (key : String)
  | ran (id : String)
  | fuelOut

/-- State threaded through the dispatcher: the broker's key-value store,
FIFO queue and schedule (deserialized in place, since the serializer is
modelled as the identity), the current wall-clock time used by
`Huey._get_timestamp`, and the trace of observable events. -/
structure HState where
  kv : List (String × PyVal)
  queue : List Task
  sched : List (Task × Int)
  time : Int
  events : List Event

def emit (st : HState) (name : String) (id : String) : HState :=
  { st with events := st.events ++ [.sig name id] }

def addEv (st : HState) (e : Event) : HState :=
  { st with events := st.events ++ [e] }

/-- `Huey.put` (serialize and `put_data`). -/
def hPut (st : HState) (key : String) (v : PyVal) : HState :=
  { st with kv := kvPut st.kv key v, events := st.events ++ [.put key] }

/-- State effect of `Huey.get_raw` with `peek=False` (`pop_data`). -/
def hPop (st : HState) (key : String) : HState :=
  { st with kv := kvDel st.kv key }

/-! ### Revocation protocol (`Huey._check_revoked` / `Huey.is_revoked`). -/

/-- Decoder for a stored revocation record
`(revoke_until, revoke_once)`. Records written by `revoke`/`revoke_all`
always have this shape. -/
def decodeRevoke : PyVal → Option (Option Int × Bool)
  | .tuple [.none, .bool b] => some (Option.none, b)
  | .tuple [.int u, .bool b] => some (some u, b)
  | _ => Option.none

/-- Encoder matching `decodeRevoke`, the value stored by
`Huey.revoke` / `Huey.revoke_all`. -/
def encodeRevoke : Option Int × Bool → PyVal
  | (Option.none, b) => .tuple [.none, .bool b]
  | (some u, b) => .tuple [.int u, .bool b]

/-- Translation of `Huey._check_revoked` on the decoded record: returns
(is the task revoked?, should the record be restored?).  The read itself
always peeks; deletion is performed by the caller. -/
def checkRevoked (res : Option (Option Int × Bool)) (timestamp : Int)
    (peek : Bool) : Bool × Bool :=
  match res with
  | Option.none => (false, false)
  | some (revokeUntil, revokeOnce) =>
      if revokeOnce then (true, !peek)
      else
        match revokeUntil with
        | some u => if u ≤ timestamp then (false, !peek) else (true, false)
        | Option.none => (true, false)

/-- Read of the revocation record under a key (`Huey.get` with
`peek=True`, followed by tuple destructuring). -/
def readRevoke (st : HState) (key : String) : Option (Option Int × Bool) :=
  (kvGet st.kv key).bind decodeRevoke

/-- Class-level branch of `Huey.is_revoked` (the `rt:` key), including the
`restore_all` pop when the record can be restored. -/
def isRevokedClass (st : HState) (name : String) (timestamp : Int)
    (peek : Bool) : Bool × HState :=
  let key := classRevokeKey name
  let (isRev, canRestore) := checkRevoked (readRevoke st key) timestamp peek
  let st := if canRestore then hPop st key else st
  (isRev, st)

/-- Translation of `Huey.is_revoked` on a task instance: check the
instance record under `r:<id>` (restoring it when indicated), and when it
does not revoke, fall through to the class record under `rt:<name>`. -/

def isRevoked (st : HState) (task : Task) (timestamp : Int) (peek : Bool) :
    Bool × HState :=
  let key := task.revokeId
  let (isRev, canRestore) := checkRevoked (readRevoke st key) timestamp peek
  let st := if canRestore then hPop st key else st
  if isRev then (true, st) else isRevokedClass st task.name timestamp peek

/-! ### The execute path (`Huey.enqueue` / `execute` / `_execute` /
`_requeue_task`). -/

/-- Outcome of running a task body (`task.execute()`), the external input
to `_execute`: normal return, `TaskLockedException`, `RetryTask`,
`KeyboardInterrupt`, or any other exception. -/
inductive BodyOut where
  | ok (v : PyVal)
  | locked
  | retry
  | interrupt
  | err (e : PyVal)

/-- Dispatcher configuration: `results`, `store_none`, `immediate`, plus
`preCancel`, which abstracts whether some registered pre-execute hook
raises `CancelExecution` (hook bodies are user code). -/
structure Cfg where
  results : Bool
  storeNone : Bool
  immediate : Bool
  preCancel : Bool

def isNone : PyVal → Bool
  | .none => true
  | _ => false

/-- Exception object raised by a held `TaskLock`. -/
def lockedExc : PyVal := .exc "TaskLockedException" "unable to set lock"

/-- Exception object for a user-requested retry. -/
def retryExc : PyVal := .exc "RetryTask" ""

/-- `Huey.ready_to_run`: no ETA, or ETA not in the future. -/
def readyToRun (task : Task) (timestamp : Int) : Bool :=
  match task.eta with
  | Option.none => true
  | some e => e ≤ timestamp

/-- `Huey.add_schedule`: serialize, insert with the ETA key (epoch 0 when
absent), emit `SCHEDULED`. -/
def addSchedule (st : HState) (task : Task) : HState :=
  let eta : Int := task.eta.getD 0
  emit { st with sched := st.sched ++ [(task, eta)] } "SCHEDULED" task.id

/-- Entry points of the mutually recursive execute path, used to express
the recursion as a single fuel-indexed function. `finish` is the tail of
`_execute` after the body has been run: result storage, chaining, and the
retry decision, with `exc` the terminating exception (if any) and `value`
the body's return value. -/
inductive Call where
  | enq (task : Task)
  | exec (task : Task) (now : Int)
  | inner (task : Task) (now : Int)
  | finish (task : Task) (exc : Option PyVal) (value : PyVal)
  | requeue (task : Task)

/-- The `results`-block of `_execute`: when results are enabled and the
task is not periodic, store an `Error` record on exception, or the return
value when it is non-`None` (or `store_none` is set). -/
def resultsBlock (cfg : Cfg) (task : Task) (exc : Option PyVal)
    (value : PyVal) (st : HState) : HState :=
  if cfg.results && !task.isPeriodic then
    match exc with
    | some e => hPut st task.id (.errorRec (pyRepr e) task.retries tbText)
    | Option.none =>
        if !(isNone value) || cfg.storeNone then hPut st task.id value else st
  else st

/-- Fuel-indexed interpreter for the mutually recursive methods
`Huey.enqueue`, `Huey.execute`, `Huey._execute` and `Huey._requeue_task`.
The fuel only bounds re-entrancy (immediate mode and continuation
chains); every theorem below supplies enough fuel for the paths it
takes.  Post-execute hooks only log-and-swallow and are modelled as
having no effect on this state. -/
def hRun : Nat → Cfg → (Task → BodyOut) → Call → HState → HState × PyVal
  | 0, _, _, _, st => (addEv st .fuelOut, .none)
  | fuel + 1, cfg, body, .enq task, st =>
      let st := emit st "ENQUEUED" task.id
      if cfg.immediate then
        ((hRun fuel cfg body (.exec task st.time) st).1, .none)
      else ({ st with queue := st.queue ++ [task] }, .none)
  | fuel + 1, cfg, body, .exec task now, st =>
      if readyToRun task now then
        match isRevoked st task now false with
        | (true, st) => (emit st "REVOKED" task.id, .none)
        | (false, st) => hRun fuel cfg body (.inner task now) (emit st "EXECUTING" task.id)
      else (addSchedule st task, .none)
  | fuel + 1, cfg, body, .inner task _now, st =>
      if cfg.preCancel then (emit st "CANCELED" task.id, .none)
      else
        let st := addEv st (.ran task.id)
        match body task with
        | .interrupt => (st, .none)
        | .ok v => hRun fuel cfg body (.finish task Option.none v) (emit st "COMPLETE" task.id)
        | .locked => hRun fuel cfg body (.finish task (some lockedExc) .none) (emit st "LOCKED" task.id)
        | .retry =>
            let task := if task.retries = 0 then task.withRetries 1 else task
            hRun fuel cfg body (.finish task (some retryExc) .none) st
        | .err e => hRun fuel cfg body (.finish task (some e) .none) (emit st "ERROR" task.id)
  | fuel + 1, cfg, body, .finish task exc value, st =>
      let st := resultsBlock cfg task exc value st
      let st :=
        match exc with
        | Option.none =>
            match task.onComplete with
            | some nt => (hRun fuel cfg body (.enq (nt.extendData value)) st).1
            | Option.none => st
        | some e =>
            match task.onError with
            | some nt => (hRun fuel cfg body (.enq (nt.extendData e)) st).1
            | Option.none => st
      let st :=
        match exc with
        | some _ =>
            if task.retries ≠ 0 then
              (hRun fuel cfg body (.requeue task) (emit st "RETRYING" task.id)).1
            else st
        | Option.none => st
      (st, value)
  | fuel + 1, cfg, body, .requeue task, st =>
      let task := task.withRetries (task.retries - 1)
      if task.retryDelay ≠ 0 then
        (addSchedule st (task.withEta (some (st.time + (task.retryDelay : Int)))), .none)
      else ((hRun fuel cfg body (.enq task) st).1, .none)

/-- `Huey.enqueue`, with a fuel budget for immediate mode. -/
def hEnqueue (fuel : Nat) (cfg : Cfg) (body : Task → BodyOut) (task : Task)
    (st : HState) : HState :=
  (hRun fuel cfg body (.enq task) st).1

/-- `Huey.execute` at an explicit timestamp. -/
def hExecute (fuel : Nat) (cfg : Cfg) (body : Task → BodyOut) (task : Task)
    (now : Int) (st : HState) : HState × PyVal :=
  hRun fuel cfg body (.exec task now) st

/-- `Huey._execute` at an explicit timestamp. -/
def hExecInner (fuel : Nat) (cfg : Cfg) (body : Task → BodyOut) (task : Task)
    (now : Int) (st : HState) : HState × PyVal :=
  hRun fuel cfg body (.inner task now) st

/-! ### The Result handle (`huey.api.Result`). -/

/-- Client-side handle on a task's result.  `cached` is the `_result`
attribute; `Option.none` models the `EmptyData` sentinel. -/
structure ResultHandle where
  taskId : String
  cached : Option PyVal

/-- A fresh handle as built by `Result.__init__` (or `Result.reset`). -/
def freshResult (taskId : String) : ResultHandle :=
  { taskId := taskId, cached := Option.none }

/-- Translation of `Result._get`: return the cached value when present;
otherwise read storage (peeking iff `preserve`), caching on a hit.
`Option.none` in the first component models `EmptyData`. -/
def resultGet (st : HState) (r : ResultHandle) (preserve : Bool) :
    Option PyVal × ResultHandle × HState :=
  match r.cached with
  | some v => (some v, r, st)
  | Option.none =>
      match kvGet st.kv r.taskId with
      | some v =>
          (some v, { r with cached := some v },
           if preserve then st else hPop st r.taskId)
      | Option.none => (Option.none, r, st)

/-- Non-blocking `Result.get_raw_result`: a single `_get`; on a miss the
method falls through and returns Python `None`. -/
def getRawNB (st : HState) (r : ResultHandle) (preserve : Bool) :
    PyVal × ResultHandle × HState :=
  match resultGet st r preserve with
  | (some v, r, st) => (v, r, st)
  | (Option.none, r, st) => (.none, r, st)

def isErrorRec : PyVal → Bool
  | .errorRec _ _ _ => true
  | _ => false

/-- Non-blocking `Result.get`: raise `TaskException` (as `Except.error`
carrying the stored record) when the stored value is an `Error` record,
else return the value. -/
def resultGetNB (st : HState) (r : ResultHandle) (preserve : Bool) :
    Except PyVal PyVal × ResultHandle × HState :=
  match getRawNB st r preserve with
  | (v, r, st) => (if isErrorRec v then .error v else .ok v, r, st)

/-- Effect of `Result.revoke()` on timeout: `Huey.revoke(task,
revoke_once=True)`, i.e. store `(None, True)` under `r:<id>`. -/
def revokeWrite (st : HState) (taskId : String) : HState :=
  hPut st ("r:" ++ taskId) (encodeRevoke (Option.none, true))

/-- Observable events of the blocking polling loop of
`Result.get_raw_result`. -/
inductive PollEv where
  | psleep (d : ℚ)
  | prevoke
  | ptimeout
  | pret (v : PyVal)
  | pfuel

/-- Python truthiness of the `timeout` argument (`if timeout and ...`). -/
def pyTruthy : Option ℚ → Bool
  | Option.none => false
  | some x => x ≠ 0

/-- Arguments of `Result.get_raw_result(blocking=True, ...)` together with
the loop's `start = time.time()` reading.  The float arithmetic of the
source is modelled exactly over `ℚ`. -/
structure PollArgs where
  timeout : Option ℚ
  backoff : ℚ
  maxDelay : ℚ
  revokeOnTimeout : Bool
  preserve : Bool
  start : ℚ

/-- Translation of the blocking `while self._result is EmptyData` loop of
`Result.get_raw_result`.  `clock` supplies the successive `time.time()`
readings (consumed only when the timeout check actually calls
`time.time()`); `fuel` bounds the number of iterations, since the real
loop need not terminate.  Each iteration: exit with the cached value;
else check the timeout (optionally revoking, then raising
`DataStoreTimeout`); else cap the delay at `max_delay`, poll storage via
`_get`, and on a miss sleep for `delay` and multiply it by `backoff`. -/
def pollLoop : Nat → List ℚ → PollArgs → HState → ResultHandle → ℚ →
    List PollEv → List PollEv × HState × ResultHandle
  | 0, _, _, st, r, _, acc => (acc ++ [.pfuel], st, r)
  | fuel + 1, clock, a, st, r, delay, acc =>
      match r.cached with
      | some v => (acc ++ [.pret v], st, r)
      | Option.none =>
          if pyTruthy a.timeout then
            match clock with
            | [] => (acc ++ [.pfuel], st, r)
            | t :: clock' =>
                if a.timeout.getD 0 ≤ t - a.start then
                  if a.revokeOnTimeout then
                    (acc ++ [.prevoke, .ptimeout], revokeWrite st r.taskId, r)
                  else (acc ++ [.ptimeout], st, r)
                else
                  let delay := if a.maxDelay < delay then a.maxDelay else delay
                  match resultGet st r a.preserve with
                  | (Option.none, r, st) =>
                      pollLoop fuel clock' a st r (delay * a.backoff) (acc ++ [.psleep delay])
                  | (some _, r, st) => pollLoop fuel clock' a st r delay acc
          else
            let delay := if a.maxDelay < delay then a.maxDelay else delay
            match resultGet st r a.preserve with
            | (Option.none, r, st) =>
                pollLoop fuel clock a st r (delay * a.backoff) (acc ++ [.psleep delay])
            | (some _, r, st) => pollLoop fuel clock a st r delay acc

/-- Blocking `Result.get_raw_result`: the polling loop entered with
`delay = 0.1`. -/
def getRawBlocking (fuel : Nat) (clock : List ℚ) (a : PollArgs)
    (st : HState) (r : ResultHandle) : List PollEv × HState × ResultHandle :=
  pollLoop fuel clock a st r (1 / 10) []

/-! ### A consumer driver for the retry loop. -/

/-- Fuel budget amply covering one non-immediate pass through
`execute → _execute → (chain enqueue / requeue)`. -/
def FuelPerStep : Nat := 8

/-- One step of the consumer: take the next task from the queue (or, when
the queue is empty, the next schedule entry), advance the clock so the
task is due, and hand it to `Huey.execute`.  This models the consumer
loop (dequeue / `read_schedule` then re-enqueue) driving the dispatcher. -/
def driveStep (cfg : Cfg) (body : Task → BodyOut) (st : HState) : HState :=
  match st.queue with
  | t :: rest =>
      let now := max st.time (t.eta.getD st.time)
      (hExecute FuelPerStep cfg body t now { st with queue := rest, time := now }).1
  | [] =>
      match st.sched with
      | (t, e) :: rest =>
          let now := max st.time e
          (hExecute FuelPerStep cfg body t now { st with sched := rest, time := now }).1
      | [] => st

def drive : Nat → Cfg → (Task → BodyOut) → HState → HState
  | 0, _, _, st => st
  | n + 1, cfg, body, st => drive n cfg body (driveStep cfg body st)

/-! ### The cron matcher (`huey.api.crontab`).  Python strings are
modelled as `List Char` here so that the piece-by-piece parsing of the
source can be translated directly. -/

def digitChar (d : Nat) : Char :=
  match d with
  | 0 => '0' | 1 => '1' | 2 => '2' | 3 => '3' | 4 => '4'
  | 5 => '5' | 6 => '6' | 7 => '7' | 8 => '8' | _ => '9'

/-- Fuel-indexed digit expansion; `fuel > n` always suffices. -/
def natDigitsAux : Nat → Nat → List Char → List Char
  | 0, _, acc => acc
  | fuel + 1, n, acc =>
      if n < 10 then digitChar n :: acc
      else natDigitsAux fuel (n / 10) (digitChar (n % 10) :: acc)

/-- Decimal digits of a natural number, most significant first, as
produced by Python `str(n)` for `n ≥ 0`. -/
def natDigits (n : Nat) : List Char := natDigitsAux (n + 1) n []

/-- Python `str` on an int (the `isinstance(value, int)` branch of
`crontab`). -/
def intToStr (n : Int) : List Char :=
  if n < 0 then '-' :: natDigits n.natAbs else natDigits n.toNat

def digitVal (c : Char) : Nat := c.toNat - '0'.toNat

/-- Numeric value of a digit string (Python `int(piece)` on a string that
passed `isdigit`). -/
def strToNat (cs : List Char) : Nat :=
  cs.foldl (fun a c => a * 10 + digitVal c) 0

/-- Python `str.isdigit`: nonempty and all digits. -/
def isDigits (cs : List Char) : Bool := !cs.isEmpty && cs.all (·.isDigit)

/-- Python `value.split(',')`. -/
def splitComma : List Char → List (List Char)
  | [] => [[]]
  | c :: rest =>
      if c = ',' then [] :: splitComma rest
      else
        match splitComma rest with
        | p :: ps => (c :: p) :: ps
        | [] => [[c]]

/-- Prefix match of `dash_re = (\d+)-(\d+)`: a nonempty digit run, a
dash, a nonempty digit run; trailing characters are ignored
(`re.match` anchors only at the start). -/
def dashMatch (cs : List Char) : Option (Nat × Nat) :=
  let d1 := cs.takeWhile (·.isDigit)
  if d1.isEmpty then Option.none
  else
    match cs.dropWhile (·.isDigit) with
    | '-' :: r2 =>
        let d2 := r2.takeWhile (·.isDigit)
        if d2.isEmpty then Option.none else some (strToNat d1, strToNat d2)
    | _ => Option.none

/-- Prefix match of `every_re = \*\/(\d+)`. -/
def everyMatch : List Char → Option Nat
  | '*' :: '/' :: r =>
      let d := r.takeWhile (·.isDigit)
      if d.isEmpty then Option.none else some (strToNat d)
  | _ => Option.none

/-- Fuel-indexed every-`n`-th selection; `fuel ≥ l.length` suffices. -/
def takeEveryAux : Nat → Nat → List Nat → List Nat
  | 0, _, _ => []
  | _ + 1, _, [] => []
  | fuel + 1, n, x :: xs => x :: takeEveryAux fuel n (xs.drop (n - 1))

/-- Python slicing `l[::n]` for `n ≥ 1`: every `n`-th element starting
with the first. -/
def takeEvery (n : Nat) (l : List Nat) : List Nat :=
  takeEveryAux l.length n l

/-- Processing of one comma-separated piece of a cron field by `crontab`:
`*` adds the whole acceptable range; a digit string is validated against
the range (raising `ValueError` otherwise) and normalized mod 7 on the
day-of-week field; `m-n` validates both endpoints, normalizes them on
day-of-week, and adds `range(lhs, rhs+1)`; `*/n` is rejected on
day-of-week and otherwise adds the `[::n]` slice of the range (Python
raises on a zero slice step); anything else is silently ignored. -/
def processPiece (isDow : Bool) (acceptable : List Nat) (s : Finset Nat)
    (piece : List Char) : Except Unit (Finset Nat) :=
  if piece = ['*'] then .ok (s ∪ acceptable.toFinset)
  else if isDigits piece then
    let n := strToNat piece
    if n ∉ acceptable then .error ()
    else .ok (insert (if isDow then n % 7 else n) s)
  else
    match dashMatch piece with
    | some (lhs, rhs) =>
        if lhs ∉ acceptable ∨ rhs ∉ acceptable then .error ()
        else
          let lhs := if isDow then lhs % 7 else lhs
          let rhs := if isDow then rhs % 7 else rhs
          .ok (s ∪ (List.range' lhs (rhs + 1 - lhs)).toFinset)
    | Option.none =>
        match everyMatch piece with
        | some interval =>
            if isDow then .error ()
            else if interval = 0 then .error ()
            else .ok (s ∪ (takeEvery interval acceptable).toFinset)
        | Option.none => .ok s

/-- One field of the `validation` table of `crontab`: split the value on
commas and accumulate the accepted set, raising at the first bad piece.
The Python `set` is modelled as a `Finset` (the source's final
`sorted(list(...))` only matters for membership). -/
def buildField (isDow : Bool) (acceptable : List Nat) (value : List Char) :
    Except Unit (Finset Nat) :=
  (splitComma value).foldlM (processPiece isDow acceptable) ∅

/-- A cron field argument: Python accepts an int (converted with `str`)
or a string. -/
inductive CronArg where
  | i (n : Int)
  | s (v : List Char)

def cronArgStr : CronArg → List Char
  | .i n => intToStr n
  | .s v => v

/-- The five accepted sets built by `crontab`, in the order of its
`validation` table. -/
structure CronSpec where
  months : Finset Nat
  days : Finset Nat
  dows : Finset Nat
  hours : Finset Nat
  minutes : Finset Nat

/-- Translation of `crontab(minute, hour, day, month, day_of_week)`:
build the five accepted sets, with the source's acceptable ranges
`range(1,13)`, `range(1,32)`, `range(8)`, `range(24)`, `range(60)`
(day-of-week accepts 7, normalized to 0). -/
def crontab (minute hour day month dayOfWeek : CronArg) :
    Except Unit CronSpec := do
  let m ← buildField false (List.range' 1 12) (cronArgStr month)
  let d ← buildField false (List.range' 1 31) (cronArgStr day)
  let w ← buildField true (List.range 8) (cronArgStr dayOfWeek)
  let hh ← buildField false (List.range 24) (cronArgStr hour)
  let mm ← buildField false (List.range 60) (cronArgStr minute)
  return ⟨m, d, w, hh, mm⟩

/-- The predicate returned by `crontab` (`validate_date`): destructure the
timetuple as `(month, day, hour, minute, weekday)` with the Python
convention Monday = 0, shift the weekday to Sunday = 0, and require every
component to lie in its accepted set. -/
def validateDate (cs : CronSpec) (mon mday hour minute wday : Nat) : Bool :=
  let w := (wday + 1) % 7
  decide (mon ∈ cs.months) && decide (mday ∈ cs.days) &&
    decide (w ∈ cs.dows) && decide (hour ∈ cs.hours) &&
    decide (minute ∈ cs.minutes)

/-- Values that `extend_data` treats as a plain scalar (neither `None`
nor a tuple nor a mapping). -/
def isPlainData : PyVal → Bool
  | .none => false
  | .tuple _ => false
  | .dict _ => false
  | _ => true

/-! ## C1 — the revocation decision table. -/

/-- Decision of the spec's revocation table for a single record: no
record does not revoke; `revoke_once` revokes; an expired `revoke_until`
(at or before `now`) does not revoke; otherwise the record revokes. -/
def instRevokes : Option (Option Int × Bool) → Int → Bool
  | Option.none, _ => false
  | some (_, true), _ => true
  | some (some u, false), now => !(decide (u ≤ now))
  | some (Option.none, false), _ => true

/-- Deletion rule of the spec's revocation table: a `revoke_once` record
is cleared on the first non-peek observation; an expired `revoke_until`
record is cleared on the first non-peek observation; otherwise the
record is kept. -/
def instClears : Option (Option Int × Bool) → Int → Bool → Bool
  | Option.none, _, _ => false
  | some (_, true), _, peek => !peek
  | some (some u, false), now, peek => decide (u ≤ now) && !peek
  | some (Option.none, false), _, _ => false

/-! ## C3 — a task with `retries = k` and a failing body runs `k + 1`
times and the final Error record carries `retries = 0`. -/

/-- Number of body invocations of the task with id `i` in an event
trace. -/
def countRanL (l : List Event) (i : String) : Nat :=
  l.countP (fun ev => match ev with | .ran j => j == i | _ => false)

/-! ## C6 — blocking `Result.get` timeout behaviour and backoff. -/

/-- The sequence of sleep delays of the polling loop: starting from a raw
delay `d`, each iteration first caps the delay at `maxDelay`, sleeps for
the capped value, and multiplies it by `backoff`. -/
def capSeq (backoff maxDelay : ℚ) : ℚ → Nat → List ℚ
  | _, 0 => []
  | d, k + 1 =>
      (if maxDelay < d then maxDelay else d) ::
        capSeq backoff maxDelay ((if maxDelay < d then maxDelay else d) * backoff) k

/-! ## C5 — the cron field parser and matcher.

The claim enumerates the accepted set built for each field form; the
following definitions state that enumeration (from the claim's words) so
that it can be compared with the parser translated from the source. -/

/-- A cron field form of the claim: `*`, an integer, a range `m-n`, or a
step `*/n`; a comma list is a `List Piece`. -/
inductive Piece where
  | star
  | num (n : Nat)
  | rng (a b : Nat)
  | every (n : Nat)

/-- Rendering of a piece as the string the parser receives. -/
def Piece.render : Piece → List Char
  | .star => ['*']
  | .num n => natDigits n
  | .rng a b => natDigits a ++ '-' :: natDigits b
  | .every n => '*' :: '/' :: natDigits n

/-- Comma-joined rendering of a list of pieces. -/
def renderPieces : List Piece → List Char
  | [] => []
  | [p] => p.render
  | p :: ps => p.render ++ ',' :: renderPieces ps

/-- The five cron fields with the claim's domains and the source's
acceptable ranges. -/
inductive CronField where
  | month
  | day
  | dow
  | hour
  | minute

def CronField.lo : CronField → Nat
  | .month => 1 | .day => 1 | .dow => 0 | .hour => 0 | .minute => 0

def CronField.hi : CronField → Nat
  | .month => 12 | .day => 31 | .dow => 6 | .hour => 23 | .minute => 59

def CronField.isDow : CronField → Bool
  | .dow => true | _ => false

/-- The source's `validation` ranges: `range(1,13)`, `range(1,32)`,
`range(8)`, `range(24)`, `range(60)`. -/
def CronField.acceptable : CronField → List Nat
  | .month => List.range' 1 12
  | .day => List.range' 1 31
  | .dow => List.range 8
  | .hour => List.range 24
  | .minute => List.range 60

/-- Integers the claim admits for a field: its domain, plus `7` on
day-of-week (where `0` and `7` both denote Sunday). -/
def CronField.valid (f : CronField) : Finset Nat :=
  if f.isDow then Finset.Icc 0 7 else Finset.Icc f.lo f.hi

/-- Normalization of day-of-week values (`7 → 0`, via `% 7`). -/
def normF (f : CronField) (n : Nat) : Nat := if f.isDow then n % 7 else n

/-- The claim's accepted set for one field form: `*` accepts the whole
domain; an in-domain integer accepts its (normalized) singleton and an
out-of-domain integer is an error; `m-n` accepts the interval between the
normalized endpoints (empty when reversed), erroring when an endpoint is
out of domain; `*/n` errors on day-of-week and otherwise accepts every
`n`-th element of the domain. -/
def pieceSpec (f : CronField) : Piece → Except Unit (Finset Nat)
  | .star => .ok (Finset.Icc f.lo f.hi)
  | .num n => if n ∈ f.valid then .ok {normF f n} else .error ()
  | .rng a b =>
      if a ∈ f.valid ∧ b ∈ f.valid then
        .ok (Finset.Icc (normF f a) (normF f b))
      else .error ()
  | .every n =>
      if f.isDow then .error ()
      else .ok ((Finset.Icc f.lo f.hi).filter (fun x => (x - f.lo) % n = 0))

/-- The claim's accepted set for a comma list: the union of its pieces,
erroring at the first bad piece. -/
def specField (f : CronField) (ps : List Piece) : Except Unit (Finset Nat) :=
  ps.foldlM (fun s p => (pieceSpec f p).map (s ∪ ·)) ∅

/-- A step piece with `n ≥ 1` (the claim is silent on `*/0`, which the
source also rejects at build time via the zero slice step). -/
def goodPiece : Piece → Prop
  | .every n => 1 ≤ n
  | _ => True

instance : DecidablePred goodPiece := by
  intro p
  cases p <;> simp [goodPiece] <;> infer_instance

/-- Equality of two field results up to the field's domain: both error,
or both succeed with sets agreeing on every domain element. -/
def fieldEquiv (f : CronField) : Except Unit (Finset Nat) →
    Except Unit (Finset Nat) → Prop
  | .error _, .error _ => True
  | .ok s, .ok s' => ∀ x ∈ Finset.Icc f.lo f.hi, (x ∈ s ↔ x ∈ s')
  | _, _ => False

/-- Field selector on a built `CronSpec`. -/
def fieldOf (cs : CronSpec) : CronField → Finset Nat
  | .month => cs.months
  | .day => cs.days
  | .dow => cs.dows
  | .hour => cs.hours
  | .minute => cs.minutes

/-- Argument selector matching `crontab`'s parameter order. -/
def argOf (mi hr dy mo dw : CronArg) : CronField → CronArg
  | .month => mo
  | .day => dy
  | .dow => dw
  | .hour => hr
  | .minute => mi

/-! ## Theorems. -/

theorem kvGet_kvPut_same (kv : List (String × PyVal)) (k : String) (v : PyVal) :
    kvGet (kvPut kv k v) k = some v := by
  induction kv with
  | nil => simp [kvPut, kvGet]
  | cons hd tl ih =>
      obtain ⟨k', v'⟩ := hd
      by_cases h : k' = k <;> simp [kvPut, kvGet, h, ih]

theorem kvGet_kvPut_other (kv : List (String × PyVal)) (k k' : String) (v : PyVal)
    (h : k' ≠ k) : kvGet (kvPut kv k v) k' = kvGet kv k' := by
  have hkk : ¬(k = k') := fun hh => h hh.symm
  induction kv with
  | nil => simp [kvPut, kvGet, hkk]
  | cons hd tl ih =>
      obtain ⟨k₀, v₀⟩ := hd
      by_cases h₀ : k₀ = k
      · subst h₀
        simp [kvPut, kvGet, hkk]
      · by_cases h₁ : k₀ = k' <;> simp [kvPut, kvGet, h₀, h₁, h, ih]

theorem kvGet_kvDel_same (kv : List (String × PyVal)) (k : String) :
    kvGet (kvDel kv k) k = Option.none := by
  induction kv with
  | nil => simp [kvDel, kvGet]
  | cons hd tl ih =>
      obtain ⟨k', v'⟩ := hd
      by_cases h : k' = k <;> simp [kvDel, kvGet, h, ih]

theorem kvGet_kvDel_other (kv : List (String × PyVal)) (k k' : String)
    (h : k' ≠ k) : kvGet (kvDel kv k) k' = kvGet kv k' := by
  induction kv with
  | nil => simp [kvDel, kvGet]
  | cons hd tl ih =>
      obtain ⟨k₀, v₀⟩ := hd
      by_cases h₀ : k₀ = k
      · subst h₀
        simp [kvDel, kvGet, Ne.symm h, ih]
      · simp [kvDel, kvGet, h₀, ih]

/-! ### Support lemmas. -/

theorem decodeRevoke_encodeRevoke (rec : Option Int × Bool) :
    decodeRevoke (encodeRevoke rec) = some rec := by
  obtain ⟨u, b⟩ := rec
  cases u <;> rfl

theorem string_ne_append_self (pre s : String) (h : pre.data ≠ []) :
    s ≠ pre ++ s := by
  intro hh
  have hd : s.data = pre.data ++ s.data := by
    have := congrArg String.data hh
    simpa [String.data_append] using this
  have hlen : s.data.length = (pre.data ++ s.data).length :=
    congrArg List.length hd
  rw [List.length_append] at hlen
  have hp0 : pre.data.length = 0 := by omega
  exact h (List.length_eq_zero.mp hp0)

theorem revoke_keys_ne (i nm : String) :
    ("r:" ++ i : String) ≠ ("rt:" ++ nm : String) := by
  intro h
  have hd := congrArg String.data h
  simp [String.data_append] at hd

theorem id_ne_instance_key (i : String) : i ≠ ("r:" ++ i : String) :=
  string_ne_append_self "r:" i (by simp [String.data])

/-! ## C10 — the Result handle caches the first retrieved value. -/

/-- Claim C10: a `Result` handle caches the first value it retrieves:
`_get` on a handle whose `_result` cache is set returns the cached value
without touching storage (for every store state and either `preserve`
flag); and after a first non-preserving `_get` has returned a stored
value, the handle is cached, the store no longer holds the key, and every
later `_get` on that same instance still returns the value with the state
unchanged. -/
theorem C10_result_handle_caches :
    (∀ (st : HState) (r : ResultHandle) (v : PyVal) (preserve : Bool),
      r.cached = some v → resultGet st r preserve = (some v, r, st)) ∧
    (∀ (st : HState) (tid : String) (v : PyVal) (preserve' : Bool),
      kvGet st.kv tid = some v →
      resultGet st (freshResult tid) false =
        (some v, ⟨tid, some v⟩, hPop st tid) ∧
      kvGet (hPop st tid).kv tid = Option.none ∧
      resultGet (hPop st tid) (⟨tid, some v⟩ : ResultHandle) preserve' =
        (some v, ⟨tid, some v⟩, hPop st tid)) := by
  constructor
  · intro st r v preserve h
    cases r with
    | mk tid cached => cases cached <;> simp_all [resultGet]
  · intro st tid v preserve' h
    refine ⟨by simp [resultGet, freshResult, h], ?_, by simp [resultGet]⟩
    simp [hPop, kvGet_kvDel_same]

/-- Witness for C10 at a concrete store and handle. -/
theorem C10_result_handle_caches_witness :
    resultGet ⟨[("a", .int 3)], [], [], 0, []⟩ (freshResult "a") false =
      (some (.int 3), ⟨"a", some (.int 3)⟩,
        hPop ⟨[("a", .int 3)], [], [], 0, []⟩ "a") :=
  (C10_result_handle_caches.2 ⟨[("a", .int 3)], [], [], 0, []⟩ "a"
    (.int 3) true rfl).1

/-! ## C7 — a stored result is returned exactly once unless preserved. -/

/-- Claim C7: after a successful `_execute` with results enabled and a
non-null return value (a plain value, not an `Error` record), the value
is stored under the task id; a fresh `Result` handle's non-preserving
`get` returns it and pops it from the store, so a second fresh handle
reads absent (Python `None`); a preserving `get` returns it by peeking
and leaves the store unchanged. -/
theorem C7_result_read_once
    (cfg : Cfg) (fuel : Nat) (body : Task → BodyOut)
    (nm i : String) (args : List PyVal) (kwargs : List (String × PyVal))
    (eta : Option Int) (r d : Nat) (now : Int) (st : HState) (v : PyVal)
    (hres : cfg.results = true) (hcan : cfg.preCancel = false)
    (hv : isNone v = false) (herr : isErrorRec v = false)
    (hbody : body (Task.mk nm i args kwargs eta r d Option.none Option.none false) = .ok v) :
    (kvGet ((hExecInner (fuel + 2) cfg body
        (Task.mk nm i args kwargs eta r d Option.none Option.none false) now st).1).kv i
      = some v) ∧
    (∀ st1 : HState, kvGet st1.kv i = some v →
      resultGetNB st1 (freshResult i) false =
        (.ok v, ⟨i, some v⟩, hPop st1 i) ∧
      kvGet (hPop st1 i).kv i = Option.none ∧
      (∀ p : Bool, resultGetNB (hPop st1 i) (freshResult i) p =
        (.ok .none, freshResult i, hPop st1 i)) ∧
      resultGetNB st1 (freshResult i) true = (.ok v, ⟨i, some v⟩, st1)) := by
  constructor
  · simp [hExecInner, hRun, hbody, hcan, hres, hv, resultsBlock, hPut, emit,
      addEv, Task.id, Task.isPeriodic, Task.onComplete, Task.retries,
      kvGet_kvPut_same]
  · intro st1 h1
    refine ⟨?_, ?_, ?_, ?_⟩
    · simp [resultGetNB, getRawNB, resultGet, freshResult, h1, herr]
    · simp [hPop, kvGet_kvDel_same]
    · intro p
      simp [resultGetNB, getRawNB, resultGet, freshResult, hPop,
        kvGet_kvDel_same, isErrorRec]
    · simp [resultGetNB, getRawNB, resultGet, freshResult, h1, herr]

/-- Witness for C7: a concrete successful execution whose result is read
once, popped, then found absent. -/
theorem C7_result_read_once_witness :
    (kvGet ((hExecInner 2 ⟨true, false, false, false⟩ (fun _ => .ok (.int 5))
        (Task.mk "add" "t1" [] [] Option.none 0 0 Option.none Option.none false)
        0 ⟨[], [], [], 0, []⟩).1).kv "t1" = some (.int 5)) ∧
    (∀ st1 : HState, kvGet st1.kv "t1" = some (.int 5) →
      resultGetNB st1 (freshResult "t1") false =
        (.ok (.int 5), ⟨"t1", some (.int 5)⟩, hPop st1 "t1") ∧
      kvGet (hPop st1 "t1").kv "t1" = Option.none ∧
      (∀ p : Bool, resultGetNB (hPop st1 "t1") (freshResult "t1") p =
        (.ok .none, freshResult "t1", hPop st1 "t1")) ∧
      resultGetNB st1 (freshResult "t1") true =
        (.ok (.int 5), ⟨"t1", some (.int 5)⟩, st1)) :=
  C7_result_read_once ⟨true, false, false, false⟩ 0 (fun _ => .ok (.int 5))
    "add" "t1" [] [] Option.none 0 0 0 ⟨[], [], [], 0, []⟩ (.int 5)
    rfl rfl rfl rfl rfl

/-! ## C2 — TaskLocked handling.  The claim says no Error record is
stored; the code stores one (the `results` block of `_execute` only
checks `exception is not None`, and the `TaskLockedException` handler
sets `exception`). -/

/-- Counterexample to claim C2 as stated: a task body raising
`TaskLocked`, executed with results enabled, leaves an `Error` record
stored under the task id in the result store. -/
theorem C2_locked_counterexample :
    kvGet ((hExecInner 2 ⟨true, false, false, false⟩ (fun _ => .locked)
        (Task.mk "job" "t2" [] [] Option.none 0 0 Option.none Option.none false) 0
        ⟨[], [], [], 0, []⟩).1).kv "t2"
      = some (.errorRec (pyRepr lockedExc) 0 tbText) := rfl

/-- Amended claim C2: when the task body raises `TaskLocked` during
`_execute`, the dispatcher emits the `LOCKED` signal, evaluates the retry
policy as for any other exception, stores no return value, but does store
an `Error` record under the task id when results are enabled and the task
is not periodic. -/
theorem C2_locked_amended
    (cfg : Cfg) (fuel : Nat) (body : Task → BodyOut)
    (nm i : String) (args : List PyVal) (kwargs : List (String × PyVal))
    (eta : Option Int) (r d : Nat) (now : Int) (st : HState)
    (hres : cfg.results = true) (himm : cfg.immediate = false)
    (hcan : cfg.preCancel = false)
    (hbody : body (Task.mk nm i args kwargs eta r d Option.none Option.none false) = .locked) :
    ((hExecInner (fuel + 4) cfg body
        (Task.mk nm i args kwargs eta r d Option.none Option.none false) now st).1).kv
      = kvPut st.kv i (.errorRec (pyRepr lockedExc) r tbText) ∧
    ((hExecInner (fuel + 4) cfg body
        (Task.mk nm i args kwargs eta r d Option.none Option.none false) now st).1).events
      = st.events ++ [.ran i, .sig "LOCKED" i, .put i] ++
        (if r = 0 then [] else .sig "RETRYING" i ::
          (if d = 0 then [.sig "ENQUEUED" i] else [.sig "SCHEDULED" i])) ∧
    ((hExecInner (fuel + 4) cfg body
        (Task.mk nm i args kwargs eta r d Option.none Option.none false) now st).1).queue
      = st.queue ++ (if r ≠ 0 ∧ d = 0 then
          [Task.mk nm i args kwargs eta (r - 1) d Option.none Option.none false] else []) ∧
    ((hExecInner (fuel + 4) cfg body
        (Task.mk nm i args kwargs eta r d Option.none Option.none false) now st).1).sched
      = st.sched ++ (if r ≠ 0 ∧ d ≠ 0 then
          [(Task.mk nm i args kwargs (some (st.time + (d : Int))) (r - 1) d
              Option.none Option.none false, st.time + (d : Int))] else []) := by
  rcases Nat.eq_zero_or_pos r with hr | hr
  · subst hr
    simp [hExecInner, hRun, hbody, hcan, hres, himm, resultsBlock, hPut, emit,
      addEv, addSchedule, Task.id, Task.isPeriodic, Task.onComplete,
      Task.onError, Task.retries, Task.retryDelay, Task.withRetries,
      Task.withEta, Task.eta]
  · have hr0 : r ≠ 0 := Nat.pos_iff_ne_zero.mp hr
    rcases Nat.eq_zero_or_pos d with hd | hd
    · subst hd
      simp [hExecInner, hRun, hbody, hcan, hres, himm, resultsBlock, hPut,
        emit, addEv, addSchedule, Task.id, Task.isPeriodic, Task.onComplete,
        Task.onError, Task.retries, Task.retryDelay, Task.withRetries,
        Task.withEta, Task.eta, hr0]
    · have hd0 : d ≠ 0 := Nat.pos_iff_ne_zero.mp hd
      simp [hExecInner, hRun, hbody, hcan, hres, himm, resultsBlock, hPut,
        emit, addEv, addSchedule, Task.id, Task.isPeriodic, Task.onComplete,
        Task.onError, Task.retries, Task.retryDelay, Task.withRetries,
        Task.withEta, Task.eta, hr0, hd0]

/-- Witness for the amended C2 at a concrete task with one retry. -/
theorem C2_locked_amended_witness :
    ((hExecInner 4 ⟨true, false, false, false⟩ (fun _ => .locked)
        (Task.mk "job" "t2" [] [] Option.none 1 0 Option.none Option.none false) 0
        ⟨[], [], [], 7, []⟩).1).kv
      = kvPut [] "t2" (.errorRec (pyRepr lockedExc) 1 tbText) ∧
    ((hExecInner 4 ⟨true, false, false, false⟩ (fun _ => .locked)
        (Task.mk "job" "t2" [] [] Option.none 1 0 Option.none Option.none false) 0
        ⟨[], [], [], 7, []⟩).1).events
      = [] ++ [.ran "t2", .sig "LOCKED" "t2", .put "t2"] ++
        (if 1 = 0 then [] else .sig "RETRYING" "t2" ::
          (if 0 = 0 then [.sig "ENQUEUED" "t2"] else [.sig "SCHEDULED" "t2"])) ∧
    ((hExecInner 4 ⟨true, false, false, false⟩ (fun _ => .locked)
        (Task.mk "job" "t2" [] [] Option.none 1 0 Option.none Option.none false) 0
        ⟨[], [], [], 7, []⟩).1).queue
      = [] ++ (if 1 ≠ 0 ∧ 0 = 0 then
          [Task.mk "job" "t2" [] [] Option.none (1 - 1) 0 Option.none Option.none false] else []) ∧
    ((hExecInner 4 ⟨true, false, false, false⟩ (fun _ => .locked)
        (Task.mk "job" "t2" [] [] Option.none 1 0 Option.none Option.none false) 0
        ⟨[], [], [], 7, []⟩).1).sched
      = [] ++ (if 1 ≠ 0 ∧ 0 ≠ 0 then
          [(Task.mk "job" "t2" [] [] (some ((7 : Int) + (0 : Nat))) (1 - 1) 0
              Option.none Option.none false, (7 : Int) + (0 : Nat))] else []) :=
  C2_locked_amended ⟨true, false, false, false⟩ 0 (fun _ => .locked)
    "job" "t2" [] [] Option.none 1 0 0 ⟨[], [], [], 7, []⟩ rfl rfl rfl rfl

/-! ## C8 — RetryTask forces at least one retry. -/

/-- Claim C8: when the body raises `RetryTask` and the retry counter is
zero, `_execute` sets it to `1` before the retry decision, so one retry
is requeued (with counter `0` after the decrement); when the counter is
positive it is left unchanged at that point, the stored `Error` record
carries the unchanged counter, and the normal retry path requeues with
the counter decremented. -/
theorem C8_retrytask_forces_retry
    (cfg : Cfg) (fuel : Nat) (body : Task → BodyOut)
    (nm i : String) (args : List PyVal) (kwargs : List (String × PyVal))
    (eta : Option Int) (r d : Nat) (now : Int) (st : HState)
    (hres : cfg.results = true) (himm : cfg.immediate = false)
    (hcan : cfg.preCancel = false)
    (hbody : body (Task.mk nm i args kwargs eta r d Option.none Option.none false) = .retry) :
    ((hExecInner (fuel + 4) cfg body
        (Task.mk nm i args kwargs eta r d Option.none Option.none false) now st).1).kv
      = kvPut st.kv i (.errorRec (pyRepr retryExc)
          (if r = 0 then 1 else r) tbText) ∧
    ((hExecInner (fuel + 4) cfg body
        (Task.mk nm i args kwargs eta r d Option.none Option.none false) now st).1).events
      = st.events ++ [.ran i, .put i, .sig "RETRYING" i] ++
        (if d = 0 then [.sig "ENQUEUED" i] else [.sig "SCHEDULED" i]) ∧
    ((hExecInner (fuel + 4) cfg body
        (Task.mk nm i args kwargs eta r d Option.none Option.none false) now st).1).queue
      = st.queue ++ (if d = 0 then
          [Task.mk nm i args kwargs eta ((if r = 0 then 1 else r) - 1) d
              Option.none Option.none false] else []) ∧
    ((hExecInner (fuel + 4) cfg body
        (Task.mk nm i args kwargs eta r d Option.none Option.none false) now st).1).sched
      = st.sched ++ (if d = 0 then [] else
          [(Task.mk nm i args kwargs (some (st.time + (d : Int)))
              ((if r = 0 then 1 else r) - 1) d Option.none Option.none false,
            st.time + (d : Int))]) := by
  have hbump : (if r = 0 then 1 else r) ≠ 0 := by
    by_cases h : r = 0 <;> simp [h]
  rcases Nat.eq_zero_or_pos d with hd | hd
  · subst hd
    rcases Nat.eq_zero_or_pos r with hr | hr
    · subst hr
      simp [hExecInner, hRun, hbody, hcan, hres, himm, resultsBlock, hPut,
        emit, addEv, addSchedule, Task.id, Task.isPeriodic, Task.onComplete,
        Task.onError, Task.retries, Task.retryDelay, Task.withRetries,
        Task.withEta, Task.eta]
    · have hr0 : r ≠ 0 := Nat.pos_iff_ne_zero.mp hr
      simp [hExecInner, hRun, hbody, hcan, hres, himm, resultsBlock, hPut,
        emit, addEv, addSchedule, Task.id, Task.isPeriodic, Task.onComplete,
        Task.onError, Task.retries, Task.retryDelay, Task.withRetries,
        Task.withEta, Task.eta, hr0]
  · have hd0 : d ≠ 0 := Nat.pos_iff_ne_zero.mp hd
    rcases Nat.eq_zero_or_pos r with hr | hr
    · subst hr
      simp [hExecInner, hRun, hbody, hcan, hres, himm, resultsBlock, hPut,
        emit, addEv, addSchedule, Task.id, Task.isPeriodic, Task.onComplete,
        Task.onError, Task.retries, Task.retryDelay, Task.withRetries,
        Task.withEta, Task.eta, hd0]
    · have hr0 : r ≠ 0 := Nat.pos_iff_ne_zero.mp hr
      simp [hExecInner, hRun, hbody, hcan, hres, himm, resultsBlock, hPut,
        emit, addEv, addSchedule, Task.id, Task.isPeriodic, Task.onComplete,
        Task.onError, Task.retries, Task.retryDelay, Task.withRetries,
        Task.withEta, Task.eta, hr0, hd0]

/-- Witness for C8: a `RetryTask` body with `retries = 0` is requeued
once. -/
theorem C8_retrytask_forces_retry_witness :
    ((hExecInner 4 ⟨true, false, false, false⟩ (fun _ => .retry)
        (Task.mk "job" "t3" [] [] Option.none 0 0 Option.none Option.none false) 0
        ⟨[], [], [], 0, []⟩).1).kv
      = kvPut [] "t3" (.errorRec (pyRepr retryExc)
          (if 0 = 0 then 1 else 0) tbText) ∧
    ((hExecInner 4 ⟨true, false, false, false⟩ (fun _ => .retry)
        (Task.mk "job" "t3" [] [] Option.none 0 0 Option.none Option.none false) 0
        ⟨[], [], [], 0, []⟩).1).events
      = [] ++ [.ran "t3", .put "t3", .sig "RETRYING" "t3"] ++
        (if 0 = 0 then [.sig "ENQUEUED" "t3"] else [.sig "SCHEDULED" "t3"]) ∧
    ((hExecInner 4 ⟨true, false, false, false⟩ (fun _ => .retry)
        (Task.mk "job" "t3" [] [] Option.none 0 0 Option.none Option.none false) 0
        ⟨[], [], [], 0, []⟩).1).queue
      = [] ++ (if 0 = 0 then
          [Task.mk "job" "t3" [] [] Option.none ((if 0 = 0 then 1 else 0) - 1) 0
              Option.none Option.none false] else []) ∧
    ((hExecInner 4 ⟨true, false, false, false⟩ (fun _ => .retry)
        (Task.mk "job" "t3" [] [] Option.none 0 0 Option.none Option.none false) 0
        ⟨[], [], [], 0, []⟩).1).sched
      = [] ++ (if 0 = 0 then [] else
          [(Task.mk "job" "t3" [] [] (some ((0 : Int) + (0 : Nat)))
              ((if 0 = 0 then 1 else 0) - 1) 0 Option.none Option.none false,
            (0 : Int) + (0 : Nat))]) :=
  C8_retrytask_forces_retry ⟨true, false, false, false⟩ 0 (fun _ => .retry)
    "job" "t3" [] [] Option.none 0 0 0 ⟨[], [], [], 0, []⟩ rfl rfl rfl rfl

/-! ## C9 — periodic tasks never touch the result store. -/

theorem enq_kv_eq (fuel : Nat) (cfg : Cfg) (body : Task → BodyOut)
    (task : Task) (st : HState) (himm : cfg.immediate = false) :
    ((hRun fuel cfg body (.enq task) st).1).kv = st.kv := by
  cases fuel with
  | zero => simp [hRun, addEv]
  | succ n => simp [hRun, himm, emit]

theorem requeue_kv_eq (fuel : Nat) (cfg : Cfg) (body : Task → BodyOut)
    (task : Task) (st : HState) (himm : cfg.immediate = false) :
    ((hRun fuel cfg body (.requeue task) st).1).kv = st.kv := by
  cases fuel with
  | zero => simp [hRun, addEv]
  | succ n =>
      simp only [hRun]
      by_cases h : (task.withRetries (task.retries - 1)).retryDelay ≠ 0
      · simp [h, addSchedule, emit]
      · simp [h, enq_kv_eq n cfg body _ st himm]

theorem finish_kv_eq (fuel : Nat) (cfg : Cfg) (body : Task → BodyOut)
    (task : Task) (exc : Option PyVal) (value : PyVal) (st : HState)
    (himm : cfg.immediate = false) (hper : task.isPeriodic = true) :
    ((hRun fuel cfg body (.finish task exc value) st).1).kv = st.kv := by
  cases fuel with
  | zero => simp [hRun, addEv]
  | succ n =>
      simp only [hRun]
      have hrb : ∀ s : HState, resultsBlock cfg task exc value s = s := by
        intro s; simp [resultsBlock, hper]
      rw [hrb]
      cases exc with
      | none =>
          cases hoc : task.onComplete with
          | none => simp
          | some nt => simp [enq_kv_eq n cfg body _ st himm]
      | some e =>
          cases hoe : task.onError with
          | none =>
              by_cases h : task.retries ≠ 0 <;>
                simp [h, requeue_kv_eq n cfg body _ _ himm, emit]
          | some nt =>
              by_cases h : task.retries ≠ 0
              · simp [h, requeue_kv_eq n cfg body _ _ himm, emit,
                  enq_kv_eq n cfg body _ st himm]
              · simp [h, enq_kv_eq n cfg body _ st himm]

/-- Claim C9: for every `PeriodicTask` instance, `_execute` never writes
to the result store (the whole key-value store is left unchanged, so in
particular no value and no `Error` record appears under the task id),
for every configuration of `results` / `store_none`, every body outcome,
and every retry setting, in non-immediate mode. -/
theorem C9_periodic_never_stores
    (fuel : Nat) (cfg : Cfg) (body : Task → BodyOut) (t : Task)
    (now : Int) (st : HState)
    (himm : cfg.immediate = false) (hper : t.isPeriodic = true) :
    ((hExecInner fuel cfg body t now st).1).kv = st.kv := by
  cases fuel with
  | zero => simp [hExecInner, hRun, addEv]
  | succ n =>
      simp only [hExecInner, hRun]
      by_cases hc : cfg.preCancel
      · simp [hc, emit]
      · cases hb : body t with
        | interrupt => simp [hc, hb, addEv]
        | ok v => simp [hc, hb, finish_kv_eq n cfg body t _ _ _ himm hper, emit, addEv]
        | locked => simp [hc, hb, finish_kv_eq n cfg body t _ _ _ himm hper, emit, addEv]
        | retry =>
            have hper2 : (if t.retries = 0 then t.withRetries 1 else t).isPeriodic = true := by
              by_cases h : t.retries = 0
              · cases t
                simpa [h, Task.withRetries, Task.isPeriodic] using hper
              · simpa [h] using hper
            simp [hc, hb, finish_kv_eq n cfg body _ _ _ _ himm hper2, emit, addEv]
        | err e => simp [hc, hb, finish_kv_eq n cfg body t _ _ _ himm hper, emit, addEv]

/-- Witness for C9: a periodic task whose body returns a value leaves the
store unchanged even with `results` and `store_none` enabled. -/
theorem C9_periodic_never_stores_witness :
    ((hExecInner 8 ⟨true, true, false, false⟩ (fun _ => .ok (.int 1))
        (Task.mk "report" "p1" [] [] Option.none 2 0 Option.none Option.none true)
        0 ⟨[("x", .int 9)], [], [], 0, []⟩).1).kv = [("x", .int 9)] :=
  C9_periodic_never_stores 8 ⟨true, true, false, false⟩ (fun _ => .ok (.int 1))
    (Task.mk "report" "p1" [] [] Option.none 2 0 Option.none Option.none true)
    0 ⟨[("x", .int 9)], [], [], 0, []⟩ rfl rfl

/-! ## C4 — continuation chaining and the `extend_data` rule. -/

theorem extendData_id (t : Task) (d : PyVal) : (t.extendData d).id = t.id := by
  cases t
  cases d with
  | tuple vs => cases vs <;> rfl
  | none => rfl
  | bool b => rfl
  | int n => rfl
  | str s => rfl
  | dict kvs => rfl
  | exc n m => rfl
  | errorRec e r tb => rfl

theorem pv_lookup_append (l1 l2 : List (String × PyVal)) (k : String) :
    List.lookup k (l1 ++ l2) = (List.lookup k l1).or (List.lookup k l2) := by
  induction l1 with
  | nil => simp [Option.or]
  | cons hd tl ih =>
      obtain ⟨ka, va⟩ := hd
      by_cases hk : k = ka
      · simp [List.lookup, hk, Option.or]
      · simp [List.lookup, beq_false_of_ne hk, ih]

theorem setdefault_foldl_lookup (kvs : List (String × PyVal))
    (acc : List (String × PyVal)) (k : String) :
    ((kvs.foldl (fun a p => setdefault a p.1 p.2) acc).lookup k) =
      (acc.lookup k).or (kvs.lookup k) := by
  induction kvs generalizing acc with
  | nil => cases h : List.lookup k acc <;> simp [Option.or, h]
  | cons hd tl ih =>
      obtain ⟨k0, v0⟩ := hd
      simp only [List.foldl_cons]
      rw [ih]
      by_cases hs : (acc.lookup k0).isSome
      · have hacc : setdefault acc k0 v0 = acc := by simp [setdefault, hs]
        rw [hacc]
        by_cases hk : k = k0
        · subst hk
          obtain ⟨w, hw⟩ := Option.isSome_iff_exists.mp hs
          simp [hw, Option.or, List.lookup]
        · simp [List.lookup, beq_false_of_ne hk]
      · have hnone : acc.lookup k0 = Option.none :=
          Option.not_isSome_iff_eq_none.mp hs
        have hacc : setdefault acc k0 v0 = acc ++ [(k0, v0)] := by
          simp [setdefault, hnone]
        rw [hacc, pv_lookup_append]
        by_cases hk : k = k0
        · subst hk
          simp [hnone, Option.or, List.lookup]
        · rcases hx : List.lookup k acc with _ | w <;>
            simp [List.lookup, beq_false_of_ne hk, Option.or, hx]

/-- Claim C4: the `extend_data` rule — `None` and the empty tuple add
nothing, a tuple is appended to args, a mapping is merged into kwargs
without overwriting existing keys, any other value is appended to args —
and the chain step of `_execute`: on success with `on_complete` set, the
successor is enqueued with the return value merged, after the result is
recorded (the `put` event precedes the `ENQUEUED` signal); on failure
with `on_error` set, the successor is enqueued with the exception merged;
on success the `on_error` successor is not enqueued, on failure the
`on_complete` successor is not enqueued (the queue gains exactly the one
successor). -/
theorem C4_chain_and_extend_data :
    (∀ t : Task, t.extendData .none = t) ∧
    (∀ (t : Task) (vs : List PyVal), t.extendData (.tuple vs) =
      if vs.isEmpty then t else t.withArgs (t.args ++ vs)) ∧
    (∀ (t : Task) (kvs : List (String × PyVal)),
      (t.extendData (.dict kvs)).args = t.args ∧
      ∀ k : String, ((t.extendData (.dict kvs)).kwargs.lookup k) =
        ((t.kwargs.lookup k).or (kvs.lookup k))) ∧
    (∀ (t : Task) (v : PyVal), isPlainData v = true →
      t.extendData v = t.withArgs (t.args ++ [v])) ∧
    (∀ (cfg : Cfg) (fuel : Nat) (body : Task → BodyOut)
      (nm i : String) (args : List PyVal) (kwargs : List (String × PyVal))
      (eta : Option Int) (r d : Nat) (now : Int) (st : HState)
      (b : Task) (oe : Option Task) (v : PyVal),
      cfg.results = true → cfg.immediate = false → cfg.preCancel = false →
      isNone v = false →
      body (Task.mk nm i args kwargs eta r d (some b) oe false) = .ok v →
      ((hExecInner (fuel + 4) cfg body
          (Task.mk nm i args kwargs eta r d (some b) oe false) now st).1).events
        = st.events ++ [.ran i, .sig "COMPLETE" i, .put i, .sig "ENQUEUED" b.id] ∧
      ((hExecInner (fuel + 4) cfg body
          (Task.mk nm i args kwargs eta r d (some b) oe false) now st).1).queue
        = st.queue ++ [b.extendData v] ∧
      ((hExecInner (fuel + 4) cfg body
          (Task.mk nm i args kwargs eta r d (some b) oe false) now st).1).kv
        = kvPut st.kv i v) ∧
    (∀ (cfg : Cfg) (fuel : Nat) (body : Task → BodyOut)
      (nm i : String) (args : List PyVal) (kwargs : List (String × PyVal))
      (eta : Option Int) (d : Nat) (now : Int) (st : HState)
      (oc : Option Task) (c : Task) (e : PyVal),
      cfg.results = true → cfg.immediate = false → cfg.preCancel = false →
      body (Task.mk nm i args kwargs eta 0 d oc (some c) false) = .err e →
      ((hExecInner (fuel + 4) cfg body
          (Task.mk nm i args kwargs eta 0 d oc (some c) false) now st).1).events
        = st.events ++ [.ran i, .sig "ERROR" i, .put i, .sig "ENQUEUED" c.id] ∧
      ((hExecInner (fuel + 4) cfg body
          (Task.mk nm i args kwargs eta 0 d oc (some c) false) now st).1).queue
        = st.queue ++ [c.extendData e] ∧
      ((hExecInner (fuel + 4) cfg body
          (Task.mk nm i args kwargs eta 0 d oc (some c) false) now st).1).kv
        = kvPut st.kv i (.errorRec (pyRepr e) 0 tbText)) := by
  refine ⟨fun t => rfl, ?_, ?_, ?_, ?_, ?_⟩
  · intro t vs
    cases vs <;> simp [Task.extendData]
  · intro t kvs
    constructor
    · cases t
      simp [Task.extendData, Task.withKwargs, Task.args, Task.kwargs]
    · intro k
      cases t
      simpa [Task.extendData, Task.withKwargs, Task.args, Task.kwargs] using
        setdefault_foldl_lookup kvs _ k
  · intro t v hv
    cases v <;> simp_all [isPlainData, Task.extendData]
  · intro cfg fuel body nm i args kwargs eta r d now st b oe v hres himm hcan hv hbody
    refine ⟨?_, ?_, ?_⟩
    · simp [hExecInner, hRun, hbody, hcan, hres, himm, hv, resultsBlock, hPut,
        emit, addEv, Task.id, Task.isPeriodic, Task.onComplete, Task.onError,
        Task.retries]
      exact extendData_id _ _
    · simp [hExecInner, hRun, hbody, hcan, hres, himm, hv, resultsBlock, hPut,
        emit, addEv, Task.id, Task.isPeriodic, Task.onComplete, Task.onError,
        Task.retries]
    · simp [hExecInner, hRun, hbody, hcan, hres, himm, hv, resultsBlock, hPut,
        emit, addEv, Task.id, Task.isPeriodic, Task.onComplete, Task.onError,
        Task.retries]
  · intro cfg fuel body nm i args kwargs eta d now st oc c e hres himm hcan hbody
    refine ⟨?_, ?_, ?_⟩
    · simp [hExecInner, hRun, hbody, hcan, hres, himm, resultsBlock, hPut,
        emit, addEv, Task.id, Task.isPeriodic, Task.onComplete, Task.onError,
        Task.retries]
      exact extendData_id _ _
    · simp [hExecInner, hRun, hbody, hcan, hres, himm, resultsBlock, hPut,
        emit, addEv, Task.id, Task.isPeriodic, Task.onComplete, Task.onError,
        Task.retries]
    · simp [hExecInner, hRun, hbody, hcan, hres, himm, resultsBlock, hPut,
        emit, addEv, Task.id, Task.isPeriodic, Task.onComplete, Task.onError,
        Task.retries]

/-- Witness for C4: a concrete success chain `a.then(b)` where the
successor is enqueued with the return value appended, after the result
is recorded. -/
theorem C4_chain_and_extend_data_witness :
    ((hExecInner 4 ⟨true, false, false, false⟩ (fun _ => .ok (.int 7))
        (Task.mk "a" "ida" [] [] Option.none 0 0
          (some (Task.mk "b" "idb" [] [] Option.none 0 0 Option.none Option.none false))
          Option.none false) 0 ⟨[], [], [], 0, []⟩).1).events
      = [] ++ [.ran "ida", .sig "COMPLETE" "ida", .put "ida",
          .sig "ENQUEUED" (Task.mk "b" "idb" [] [] Option.none 0 0
            Option.none Option.none false).id] ∧
    ((hExecInner 4 ⟨true, false, false, false⟩ (fun _ => .ok (.int 7))
        (Task.mk "a" "ida" [] [] Option.none 0 0
          (some (Task.mk "b" "idb" [] [] Option.none 0 0 Option.none Option.none false))
          Option.none false) 0 ⟨[], [], [], 0, []⟩).1).queue
      = [] ++ [(Task.mk "b" "idb" [] [] Option.none 0 0 Option.none Option.none
          false).extendData (.int 7)] ∧
    ((hExecInner 4 ⟨true, false, false, false⟩ (fun _ => .ok (.int 7))
        (Task.mk "a" "ida" [] [] Option.none 0 0
          (some (Task.mk "b" "idb" [] [] Option.none 0 0 Option.none Option.none false))
          Option.none false) 0 ⟨[], [], [], 0, []⟩).1).kv
      = kvPut [] "ida" (.int 7) :=
  C4_chain_and_extend_data.2.2.2.2.1 ⟨true, false, false, false⟩ 0
    (fun _ => .ok (.int 7)) "a" "ida" [] [] Option.none 0 0 0
    ⟨[], [], [], 0, []⟩
    (Task.mk "b" "idb" [] [] Option.none 0 0 Option.none Option.none false)
    Option.none (.int 7) rfl rfl rfl rfl rfl

theorem checkRevoked_spec (rec : Option (Option Int × Bool)) (now : Int)
    (peek : Bool) :
    checkRevoked rec now peek = (instRevokes rec now, instClears rec now peek) := by
  rcases rec with _ | ⟨u, b⟩
  · rfl
  · cases b
    · cases u with
      | none => rfl
      | some x =>
          by_cases h : x ≤ now <;> simp [checkRevoked, instRevokes, instClears, h]
    · cases u <;> rfl

theorem readRevoke_of_kv (st : HState) (key : String)
    (rec : Option (Option Int × Bool))
    (h : kvGet st.kv key = rec.map encodeRevoke) : readRevoke st key = rec := by
  cases rec <;> simp [readRevoke, h, decodeRevoke_encodeRevoke]

theorem isRevokedClass_spec (st : HState) (nm : String) (now : Int)
    (peek : Bool) (crec : Option (Option Int × Bool))
    (hc : kvGet st.kv ("rt:" ++ nm) = crec.map encodeRevoke) :
    (isRevokedClass st nm now peek).1 = instRevokes crec now ∧
    kvGet ((isRevokedClass st nm now peek).2).kv ("rt:" ++ nm) =
      (if instClears crec now peek then Option.none else crec.map encodeRevoke) ∧
    ∀ k' : String, k' ≠ "rt:" ++ nm →
      kvGet ((isRevokedClass st nm now peek).2).kv k' = kvGet st.kv k' := by
  have hr := readRevoke_of_kv st ("rt:" ++ nm) crec hc
  by_cases hcl : instClears crec now peek
  · refine ⟨?_, ?_, ?_⟩ <;>
      simp [isRevokedClass, classRevokeKey, hr, checkRevoked_spec, hcl, hPop,
        kvGet_kvDel_same, kvGet_kvDel_other]
    intro k' hk
    simp [kvGet_kvDel_other _ _ _ hk]
  · refine ⟨?_, ?_, ?_⟩ <;>
      simp [isRevokedClass, classRevokeKey, hr, checkRevoked_spec, hcl, hc]

/-- Claim C1: `is_revoked(t, now, peek)` follows the spec's decision
table.  With the instance record `irec` (under `r:` + id) and the class
record `crec` (under `rt:` + class-name): the revocation verdict is the
table's verdict on `irec`, or else the table's verdict on `crec`; the
record `irec` is deleted exactly when the table clears it (on the
first non-peek observation of a one-shot or expired record); and the
class record is consulted — and deleted by the same rule — exactly when
the record `irec` does not revoke. -/
theorem C1_revocation_decision_table
    (nm i : String) (args : List PyVal) (kwargs : List (String × PyVal))
    (eta : Option Int) (r d : Nat) (oc oe : Option Task) (per : Bool)
    (irec crec : Option (Option Int × Bool)) (st : HState) (now : Int)
    (peek : Bool)
    (hi : kvGet st.kv ("r:" ++ i) = irec.map encodeRevoke)
    (hc : kvGet st.kv ("rt:" ++ nm) = crec.map encodeRevoke) :
    ((isRevoked st (Task.mk nm i args kwargs eta r d oc oe per) now peek).1 =
      (instRevokes irec now ||
        (!(instRevokes irec now) && instRevokes crec now))) ∧
    (kvGet ((isRevoked st (Task.mk nm i args kwargs eta r d oc oe per) now peek).2).kv
        ("r:" ++ i) =
      (if instClears irec now peek then Option.none else irec.map encodeRevoke)) ∧
    (kvGet ((isRevoked st (Task.mk nm i args kwargs eta r d oc oe per) now peek).2).kv
        ("rt:" ++ nm) =
      (if !(instRevokes irec now) && instClears crec now peek then Option.none
       else crec.map encodeRevoke)) := by
  have hkeys := revoke_keys_ne i nm
  have hr := readRevoke_of_kv st ("r:" ++ i) irec hi
  by_cases hrev : instRevokes irec now
  · by_cases hcl : instClears irec now peek
    · refine ⟨?_, ?_, ?_⟩
      · simp [isRevoked, Task.revokeId, Task.id, Task.name, hr,
          checkRevoked_spec, hrev, hcl]
      · simp [isRevoked, Task.revokeId, Task.id, Task.name, hr,
          checkRevoked_spec, hrev, hcl, hPop, kvGet_kvDel_same]
      · simp [isRevoked, Task.revokeId, Task.id, Task.name, hr,
          checkRevoked_spec, hrev, hcl, hPop,
          kvGet_kvDel_other _ _ _ (Ne.symm hkeys), hc]
    · refine ⟨?_, ?_, ?_⟩
      · simp [isRevoked, Task.revokeId, Task.id, Task.name, hr,
          checkRevoked_spec, hrev, hcl]
      · simp [isRevoked, Task.revokeId, Task.id, Task.name, hr,
          checkRevoked_spec, hrev, hcl, hi]
      · simp [isRevoked, Task.revokeId, Task.id, Task.name, hr,
          checkRevoked_spec, hrev, hcl, hc]
  · by_cases hcl : instClears irec now peek
    · obtain ⟨hc1, hc2, hc3⟩ := isRevokedClass_spec (hPop st ("r:" ++ i)) nm now
        peek crec
        (by simp [hPop, kvGet_kvDel_other _ _ _ (Ne.symm hkeys), hc])
      refine ⟨?_, ?_, ?_⟩
      · simp [isRevoked, Task.revokeId, Task.id, Task.name, hr,
          checkRevoked_spec, hrev, hcl, hc1]
      · simp [isRevoked, Task.revokeId, Task.id, Task.name, hr,
          checkRevoked_spec, hrev, hcl, hc3 ("r:" ++ i) hkeys]
        simp [hPop, kvGet_kvDel_same]
      · simp [isRevoked, Task.revokeId, Task.id, Task.name, hr,
          checkRevoked_spec, hrev, hcl, hc2]
    · obtain ⟨hc1, hc2, hc3⟩ := isRevokedClass_spec st nm now peek crec hc
      refine ⟨?_, ?_, ?_⟩
      · simp [isRevoked, Task.revokeId, Task.id, Task.name, hr,
          checkRevoked_spec, hrev, hcl, hc1]
      · simp [isRevoked, Task.revokeId, Task.id, Task.name, hr,
          checkRevoked_spec, hrev, hcl, hc3 ("r:" ++ i) hkeys, hi]
      · simp [isRevoked, Task.revokeId, Task.id, Task.name, hr,
          checkRevoked_spec, hrev, hcl, hc2]

/-- Witness for C1: a one-shot instance revocation observed without
peeking is reported revoked and cleared; the class record (absent) is
untouched. -/
theorem C1_revocation_decision_table_witness :
    ((isRevoked ⟨[("r:tw", encodeRevoke (Option.none, true))], [], [], 0, []⟩
        (Task.mk "job" "tw" [] [] Option.none 0 0 Option.none Option.none false)
        5 false).1 =
      (instRevokes (some (Option.none, true)) 5 ||
        (!(instRevokes (some (Option.none, true)) 5) && instRevokes Option.none 5))) ∧
    (kvGet ((isRevoked ⟨[("r:tw", encodeRevoke (Option.none, true))], [], [], 0, []⟩
        (Task.mk "job" "tw" [] [] Option.none 0 0 Option.none Option.none false)
        5 false).2).kv ("r:" ++ "tw") =
      (if instClears (some (Option.none, true)) 5 false then Option.none
       else (some (Option.none, true)).map encodeRevoke)) ∧
    (kvGet ((isRevoked ⟨[("r:tw", encodeRevoke (Option.none, true))], [], [], 0, []⟩
        (Task.mk "job" "tw" [] [] Option.none 0 0 Option.none Option.none false)
        5 false).2).kv ("rt:" ++ "job") =
      (if !(instRevokes (some (Option.none, true)) 5) &&
          instClears Option.none 5 false then Option.none
       else (Option.none : Option (Option Int × Bool)).map encodeRevoke)) :=
  C1_revocation_decision_table "job" "tw" [] [] Option.none 0 0
    Option.none Option.none false (some (Option.none, true)) Option.none
    ⟨[("r:tw", encodeRevoke (Option.none, true))], [], [], 0, []⟩ 5 false
    rfl rfl

theorem countRanL_append (l1 l2 : List Event) (i : String) :
    countRanL (l1 ++ l2) i = countRanL l1 i + countRanL l2 i :=
  List.countP_append _ _ _

/-- One `Huey.execute` of a due, unrevoked, non-periodic, chain-free task
whose body raises: the Error record is stored with the task's current
retry counter, and the retry decision requeues (to the queue or the
schedule) with the counter decremented. -/
theorem execFail_step (cfg : Cfg) (e : PyVal) (nm i : String)
    (args : List PyVal) (kwargs : List (String × PyVal)) (eta : Option Int)
    (k d : Nat) (st : HState) (now : Int)
    (hres : cfg.results = true) (himm : cfg.immediate = false)
    (hcan : cfg.preCancel = false)
    (hrk : kvGet st.kv ("r:" ++ i) = Option.none)
    (hrtk : kvGet st.kv ("rt:" ++ nm) = Option.none)
    (hready : readyToRun (Task.mk nm i args kwargs eta k d Option.none Option.none false) now = true) :
    (hExecute 8 cfg (fun _ => .err e)
        (Task.mk nm i args kwargs eta k d Option.none Option.none false) now st).1 =
      { kv := kvPut st.kv i (.errorRec (pyRepr e) k tbText),
        queue := st.queue ++ (if k ≠ 0 ∧ d = 0 then
          [Task.mk nm i args kwargs eta (k - 1) d Option.none Option.none false] else []),
        sched := st.sched ++ (if k ≠ 0 ∧ d ≠ 0 then
          [(Task.mk nm i args kwargs (some (st.time + (d : Int))) (k - 1) d
              Option.none Option.none false, st.time + (d : Int))] else []),
        time := st.time,
        events := st.events ++ [.sig "EXECUTING" i, .ran i, .sig "ERROR" i, .put i] ++
          (if k = 0 then [] else .sig "RETRYING" i ::
            (if d = 0 then [.sig "ENQUEUED" i] else [.sig "SCHEDULED" i])) } := by
  have hnorev : isRevoked st
      (Task.mk nm i args kwargs eta k d Option.none Option.none false) now false =
      (false, st) := by
    simp [isRevoked, isRevokedClass, readRevoke, Task.revokeId, Task.id,
      Task.name, classRevokeKey, hrk, hrtk, checkRevoked]
  rcases Nat.eq_zero_or_pos k with hk | hk
  · subst hk
    simp [hExecute, hRun, hready, hnorev, hres, himm, hcan, resultsBlock,
      hPut, emit, addEv, addSchedule, Task.id, Task.isPeriodic, Task.onComplete,
      Task.onError, Task.retries, Task.retryDelay, Task.withRetries,
      Task.withEta, Task.eta]
  · have hk0 : k ≠ 0 := Nat.pos_iff_ne_zero.mp hk
    rcases Nat.eq_zero_or_pos d with hd | hd
    · subst hd
      simp [hExecute, hRun, hready, hnorev, hres, himm, hcan, resultsBlock,
        hPut, emit, addEv, addSchedule, Task.id, Task.isPeriodic,
        Task.onComplete, Task.onError, Task.retries, Task.retryDelay,
        Task.withRetries, Task.withEta, Task.eta, hk0]
    · have hd0 : d ≠ 0 := Nat.pos_iff_ne_zero.mp hd
      simp [hExecute, hRun, hready, hnorev, hres, himm, hcan, resultsBlock,
        hPut, emit, addEv, addSchedule, Task.id, Task.isPeriodic,
        Task.onComplete, Task.onError, Task.retries, Task.retryDelay,
        Task.withRetries, Task.withEta, Task.eta, hk0, hd0]

theorem driveStep_empty (cfg : Cfg) (body : Task → BodyOut) (st : HState)
    (hq : st.queue = []) (hs : st.sched = []) :
    driveStep cfg body st = st := by
  simp [driveStep, hq, hs]

theorem drive_empty (m : Nat) (cfg : Cfg) (body : Task → BodyOut) (st : HState)
    (hq : st.queue = []) (hs : st.sched = []) :
    drive m cfg body st = st := by
  induction m with
  | zero => rfl
  | succ n ih => simp [drive, driveStep_empty cfg body st hq hs, ih]

theorem driveStep_fail (cfg : Cfg) (e : PyVal) (nm i : String)
    (args : List PyVal) (kwargs : List (String × PyVal)) (eta : Option Int)
    (k d : Nat) (st : HState)
    (hres : cfg.results = true) (himm : cfg.immediate = false)
    (hcan : cfg.preCancel = false)
    (hrk : kvGet st.kv ("r:" ++ i) = Option.none)
    (hrtk : kvGet st.kv ("rt:" ++ nm) = Option.none)
    (hconf : (st.queue = [Task.mk nm i args kwargs eta k d Option.none Option.none false] ∧
        st.sched = []) ∨
      (st.queue = [] ∧ ∃ x : Int, eta = some x ∧
        st.sched = [(Task.mk nm i args kwargs eta k d Option.none Option.none false, x)])) :
    ∃ tnew : Int,
      driveStep cfg (fun _ => .err e) st =
        { kv := kvPut st.kv i (.errorRec (pyRepr e) k tbText),
          queue := if k ≠ 0 ∧ d = 0 then
            [Task.mk nm i args kwargs eta (k - 1) d Option.none Option.none false] else [],
          sched := if k ≠ 0 ∧ d ≠ 0 then
            [(Task.mk nm i args kwargs (some (tnew + (d : Int))) (k - 1) d
                Option.none Option.none false, tnew + (d : Int))] else [],
          time := tnew,
          events := st.events ++ [.sig "EXECUTING" i, .ran i, .sig "ERROR" i, .put i] ++
            (if k = 0 then [] else .sig "RETRYING" i ::
              (if d = 0 then [.sig "ENQUEUED" i] else [.sig "SCHEDULED" i])) } := by
  rcases hconf with ⟨hq, hs⟩ | ⟨hq, x, hx, hs⟩
  · refine ⟨max st.time (eta.getD st.time), ?_⟩
    have hready : readyToRun (Task.mk nm i args kwargs eta k d Option.none Option.none false)
        (max st.time (eta.getD st.time)) = true := by
      cases eta with
      | none => rfl
      | some y => simp [readyToRun, Task.eta]
    have hex := execFail_step cfg e nm i args kwargs eta k d
      { st with queue := [], time := max st.time (eta.getD st.time) }
      (max st.time (eta.getD st.time)) hres himm hcan hrk hrtk hready
    have hds : driveStep cfg (fun _ => .err e) st =
        (hExecute 8 cfg (fun _ => .err e)
          (Task.mk nm i args kwargs eta k d Option.none Option.none false)
          (max st.time (eta.getD st.time))
          { st with queue := [], time := max st.time (eta.getD st.time) }).1 := by
      simp [driveStep, hq, FuelPerStep, Task.eta]
    rw [hds, hex]
    simp [hs]
  · refine ⟨max st.time x, ?_⟩
    have hready : readyToRun (Task.mk nm i args kwargs eta k d Option.none Option.none false)
        (max st.time x) = true := by
      subst hx
      simp [readyToRun, Task.eta]
    have hex := execFail_step cfg e nm i args kwargs eta k d
      { st with sched := [], time := max st.time x } (max st.time x)
      hres himm hcan hrk hrtk hready
    have hds : driveStep cfg (fun _ => .err e) st =
        (hExecute 8 cfg (fun _ => .err e)
          (Task.mk nm i args kwargs eta k d Option.none Option.none false)
          (max st.time x)
          { st with sched := [], time := max st.time x }).1 := by
      simp [driveStep, hq, hs, FuelPerStep, Task.eta]
    rw [hds, hex]
    simp [hq]

theorem drive_add (a b : Nat) (cfg : Cfg) (body : Task → BodyOut) (st : HState) :
    drive (a + b) cfg body st = drive b cfg body (drive a cfg body st) := by
  induction a generalizing st with
  | zero => simp [drive]
  | succ n ihd => simp [drive, Nat.succ_add, ihd]

theorem drive_fail_aux (cfg : Cfg) (e : PyVal) (nm i : String)
    (args : List PyVal) (kwargs : List (String × PyVal)) (d : Nat)
    (hres : cfg.results = true) (himm : cfg.immediate = false)
    (hcan : cfg.preCancel = false) (hik : i ≠ "rt:" ++ nm) :
    ∀ (k : Nat) (eta : Option Int) (st : HState),
      kvGet st.kv ("r:" ++ i) = Option.none →
      kvGet st.kv ("rt:" ++ nm) = Option.none →
      ((st.queue = [Task.mk nm i args kwargs eta k d Option.none Option.none false] ∧
          st.sched = []) ∨
        (st.queue = [] ∧ ∃ x : Int, eta = some x ∧
          st.sched = [(Task.mk nm i args kwargs eta k d Option.none Option.none false, x)])) →
      countRanL (drive (k + 1) cfg (fun _ => .err e) st).events i =
        countRanL st.events i + (k + 1) ∧
      kvGet (drive (k + 1) cfg (fun _ => .err e) st).kv i =
        some (.errorRec (pyRepr e) 0 tbText) ∧
      (drive (k + 1) cfg (fun _ => .err e) st).queue = [] ∧
      (drive (k + 1) cfg (fun _ => .err e) st).sched = [] := by
  intro k
  induction k with
  | zero =>
      intro eta st hrk hrtk hconf
      obtain ⟨tnew, hds⟩ := driveStep_fail cfg e nm i args kwargs eta 0 d st
        hres himm hcan hrk hrtk hconf
      have h1 : drive (0 + 1) cfg (fun _ => .err e) st =
          driveStep cfg (fun _ => .err e) st := by
        simp [drive]
      rw [h1, hds]
      refine ⟨?_, ?_, ?_, ?_⟩
      · simp [countRanL_append, countRanL]
      · simp [kvGet_kvPut_same]
      · simp
      · simp
  | succ k' ih =>
      intro eta st hrk hrtk hconf
      obtain ⟨tnew, hds⟩ := driveStep_fail cfg e nm i args kwargs eta (k' + 1) d st
        hres himm hcan hrk hrtk hconf
      have hsucc : k' + 1 ≠ 0 := Nat.succ_ne_zero k'
      have h1 : drive (k' + 1 + 1) cfg (fun _ => .err e) st =
          drive (k' + 1) cfg (fun _ => .err e) (driveStep cfg (fun _ => .err e) st) := by
        simp [drive]
      set st2 := driveStep cfg (fun _ => .err e) st with hst2
      have hrk2 : kvGet st2.kv ("r:" ++ i) = Option.none := by
        rw [hds]
        simpa [kvGet_kvPut_other _ _ _ _ (id_ne_instance_key i).symm] using hrk
      have hrtk2 : kvGet st2.kv ("rt:" ++ nm) = Option.none := by
        rw [hds]
        simpa [kvGet_kvPut_other _ _ _ _ (Ne.symm hik)] using hrtk
      have hconf2 : (st2.queue = [Task.mk nm i args kwargs
            (if d = 0 then eta else some (tnew + (d : Int))) k' d
            Option.none Option.none false] ∧ st2.sched = []) ∨
          (st2.queue = [] ∧ ∃ x : Int,
            (if d = 0 then eta else some (tnew + (d : Int))) = some x ∧
            st2.sched = [(Task.mk nm i args kwargs
              (if d = 0 then eta else some (tnew + (d : Int))) k' d
              Option.none Option.none false, x)]) := by
        rcases Nat.eq_zero_or_pos d with hd | hd
        · subst hd
          left
          rw [hds]
          simp [hsucc]
        · have hd0 : d ≠ 0 := Nat.pos_iff_ne_zero.mp hd
          right
          rw [hds]
          exact ⟨by simp [hd0], tnew + (d : Int), by simp [hd0], by simp [hsucc, hd0]⟩
      obtain ⟨hcnt, hkv, hqf, hsf⟩ := ih (if d = 0 then eta else some (tnew + (d : Int)))
        st2 hrk2 hrtk2 hconf2
      have hev2 : countRanL st2.events i = countRanL st.events i + 1 := by
        rw [hds]
        rcases Nat.eq_zero_or_pos d with hd | hd
        · subst hd
          simp [countRanL_append, countRanL, hsucc]
        · simp [countRanL_append, countRanL, hsucc, Nat.pos_iff_ne_zero.mp hd]
      rw [h1]
      exact ⟨by rw [hcnt, hev2]; omega, hkv, hqf, hsf⟩

/-- Claim C3: a chain-free task with `retries = k` whose body
deterministically raises, driven through the dispatcher's retry
machinery, runs its body exactly `k + 1` times; the Error record stored
by the final execution carries `retries = 0`; afterwards nothing remains
queued or scheduled and further consumer steps run nothing more. -/
theorem C3_retries_run_k_plus_one
    (cfg : Cfg) (e : PyVal) (nm i : String) (args : List PyVal)
    (kwargs : List (String × PyVal)) (d k : Nat) (st : HState)
    (hres : cfg.results = true) (himm : cfg.immediate = false)
    (hcan : cfg.preCancel = false) (hik : i ≠ "rt:" ++ nm)
    (hrk : kvGet st.kv ("r:" ++ i) = Option.none)
    (hrtk : kvGet st.kv ("rt:" ++ nm) = Option.none)
    (hq : st.queue = [Task.mk nm i args kwargs Option.none k d Option.none Option.none false])
    (hs : st.sched = []) :
    countRanL (drive (k + 1) cfg (fun _ => .err e) st).events i =
      countRanL st.events i + (k + 1) ∧
    kvGet (drive (k + 1) cfg (fun _ => .err e) st).kv i =
      some (.errorRec (pyRepr e) 0 tbText) ∧
    (∀ m : Nat, drive (k + 1 + m) cfg (fun _ => .err e) st =
      drive (k + 1) cfg (fun _ => .err e) st) := by
  obtain ⟨h1, h2, h3, h4⟩ := drive_fail_aux cfg e nm i args kwargs d hres himm
    hcan hik k Option.none st hrk hrtk (Or.inl ⟨hq, hs⟩)
  refine ⟨h1, h2, ?_⟩
  intro m
  rw [drive_add (k + 1) m cfg _ st, drive_empty m cfg _ _ h3 h4]

/-- Witness for C3: two retries, three runs, final record `retries = 0`. -/
theorem C3_retries_run_k_plus_one_witness :
    countRanL (drive 3 ⟨true, false, false, false⟩
        (fun _ => .err (.exc "ValueError" "x"))
        ⟨[], [Task.mk "boom" "t9" [] [] Option.none 2 0 Option.none Option.none false],
          [], 100, []⟩).events "t9" = countRanL [] "t9" + 3 ∧
    kvGet (drive 3 ⟨true, false, false, false⟩
        (fun _ => .err (.exc "ValueError" "x"))
        ⟨[], [Task.mk "boom" "t9" [] [] Option.none 2 0 Option.none Option.none false],
          [], 100, []⟩).kv "t9" =
      some (.errorRec (pyRepr (.exc "ValueError" "x")) 0 tbText) ∧
    (∀ m : Nat, drive (3 + m) ⟨true, false, false, false⟩
        (fun _ => .err (.exc "ValueError" "x"))
        ⟨[], [Task.mk "boom" "t9" [] [] Option.none 2 0 Option.none Option.none false],
          [], 100, []⟩ =
      drive 3 ⟨true, false, false, false⟩
        (fun _ => .err (.exc "ValueError" "x"))
        ⟨[], [Task.mk "boom" "t9" [] [] Option.none 2 0 Option.none Option.none false],
          [], 100, []⟩) :=
  C3_retries_run_k_plus_one ⟨true, false, false, false⟩ (.exc "ValueError" "x")
    "boom" "t9" [] [] 0 2
    ⟨[], [Task.mk "boom" "t9" [] [] Option.none 2 0 Option.none Option.none false],
      [], 100, []⟩
    rfl rfl rfl (by decide) rfl rfl rfl rfl

theorem pollLoop_timeout_aux (a : PollArgs) (T : ℚ)
    (htime : a.timeout = some T) (hT : T ≠ 0) (tid : String) :
    ∀ (pre : List ℚ) (tc : ℚ) (rest : List ℚ) (fuel : Nat) (st : HState)
      (delay : ℚ) (acc : List PollEv),
      kvGet st.kv tid = Option.none →
      (∀ u ∈ pre, u - a.start < T) →
      T ≤ tc - a.start →
      pre.length < fuel →
      pollLoop fuel (pre ++ tc :: rest) a st ⟨tid, Option.none⟩ delay acc =
        (acc ++ (capSeq a.backoff a.maxDelay delay pre.length).map PollEv.psleep ++
          (if a.revokeOnTimeout then [.prevoke, .ptimeout] else [.ptimeout]),
         (if a.revokeOnTimeout then revokeWrite st tid else st),
         ⟨tid, Option.none⟩) := by
  intro pre
  induction pre with
  | nil =>
      intro tc rest fuel st delay acc hkv hpre htc hfuel
      cases fuel with
      | zero => omega
      | succ f =>
          have htrue : pyTruthy (some T) = true := by simp [pyTruthy, hT]
          by_cases hrot : a.revokeOnTimeout <;>
            simp [pollLoop, htrue, htime, htc, hrot, capSeq]
  | cons u pre' ih =>
      intro tc rest fuel st delay acc hkv hpre htc hfuel
      cases fuel with
      | zero => simp at hfuel
      | succ f =>
          have htrue : pyTruthy (some T) = true := by simp [pyTruthy, hT]
          have hu : ¬ (T ≤ u - a.start) := not_le.mpr (hpre u (by simp))
          have hmiss : resultGet st ⟨tid, Option.none⟩ a.preserve =
              (Option.none, ⟨tid, Option.none⟩, st) := by
            simp [resultGet, hkv]
          have hrec := ih tc rest f st
            ((if a.maxDelay < delay then a.maxDelay else delay) * a.backoff)
            (acc ++ [.psleep (if a.maxDelay < delay then a.maxDelay else delay)])
            hkv (fun v hv => hpre v (by simp [hv])) htc (by simpa using hfuel)
          simp only [pollLoop, List.cons_append, htime, htrue, Option.getD_some,
            hu, if_false, if_true, hmiss]
          rw [hrec]
          simp [capSeq]

/-- Claim C6: a blocking `Result.get` whose polling exhausts the timeout
`T` without the value appearing first revokes the task when
`revoke_on_timeout` is set (writing a one-shot revocation record) and
then raises `DataStoreTimeout` (the `prevoke` event precedes the
`ptimeout` event); while polling, the sleep delays follow `capSeq`: the
loop starts from a raw delay of `0.1` (so the first sleep is `0.1`
whenever `0.1 ≤ max_delay`), each sleep is capped at `max_delay`, and
each successive sleep is the previous one multiplied by `backoff`, capped
at `max_delay`. -/
theorem C6_blocking_timeout_backoff :
    (∀ (a : PollArgs) (T : ℚ) (tid : String) (pre : List ℚ) (tc : ℚ)
      (rest : List ℚ) (fuel : Nat) (st : HState),
      a.timeout = some T → T ≠ 0 →
      kvGet st.kv tid = Option.none →
      (∀ u ∈ pre, u - a.start < T) →
      T ≤ tc - a.start →
      pre.length < fuel →
      getRawBlocking fuel (pre ++ tc :: rest) a st ⟨tid, Option.none⟩ =
        ((capSeq a.backoff a.maxDelay (1 / 10) pre.length).map PollEv.psleep ++
          (if a.revokeOnTimeout then [.prevoke, .ptimeout] else [.ptimeout]),
         (if a.revokeOnTimeout then revokeWrite st tid else st),
         ⟨tid, Option.none⟩)) ∧
    (∀ (st : HState) (tid : String),
      kvGet (revokeWrite st tid).kv ("r:" ++ tid) =
        some (encodeRevoke (Option.none, true))) ∧
    (∀ (backoff maxDelay : ℚ) (k : Nat), 1 / 10 ≤ maxDelay →
      (capSeq backoff maxDelay (1 / 10) (k + 1)).head? = some (1 / 10)) ∧
    (∀ (backoff maxDelay d : ℚ) (k i : Nat), i + 1 < k →
      (capSeq backoff maxDelay d k).get? (i + 1) =
        ((capSeq backoff maxDelay d k).get? i).map
          (fun c => min (c * backoff) maxDelay)) := by
  refine ⟨?_, ?_, ?_, ?_⟩
  · intro a T tid pre tc rest fuel st htime hT hkv hpre htc hfuel
    have := pollLoop_timeout_aux a T htime hT tid pre tc rest fuel st (1 / 10)
      [] hkv hpre htc hfuel
    simpa [getRawBlocking] using this
  · intro st tid
    simp [revokeWrite, hPut, kvGet_kvPut_same]
  · intro backoff maxDelay k h
    by_cases hc : maxDelay < 1 / 10
    · exact absurd hc (not_lt.mpr h)
    · simp only [capSeq, List.head?_cons]
      rw [if_neg hc]
  · have cap_eq_min : ∀ M x : ℚ, (if M < x then M else x) = min x M := by
      intro M x
      rcases le_or_lt x M with h | h
      · rw [if_neg (not_lt.mpr h), min_eq_left h]
      · rw [if_pos h, min_eq_right (le_of_lt h)]
    have get0 : ∀ (backoff maxDelay d : ℚ) (k : Nat), 0 < k →
        (capSeq backoff maxDelay d k).get? 0 = some (min d maxDelay) := by
      intro backoff maxDelay d k hk
      match k, hk with
      | (k' + 1), _ =>
          simp only [capSeq, List.get?_cons_zero]
          rw [cap_eq_min]
    have getS : ∀ (backoff maxDelay d : ℚ) (k i : Nat),
        (capSeq backoff maxDelay d (k + 1)).get? (i + 1) =
          (capSeq backoff maxDelay ((min d maxDelay) * backoff) k).get? i := by
      intro backoff maxDelay d k i
      simp only [capSeq, List.get?_cons_succ]
      rw [cap_eq_min]
    intro backoff maxDelay d k i
    induction i generalizing d k with
    | zero =>
        intro hk
        match k, hk with
        | (k' + 2), _ =>
            rw [getS, get0 _ _ _ _ (Nat.succ_pos k'),
              get0 _ _ _ _ (by omega : 0 < k' + 2)]
            rfl
    | succ i' ih =>
        intro hk
        match k, hk with
        | (k' + 1), hk =>
            rw [getS, getS, ih (min d maxDelay * backoff) k' (by omega)]

/-- Witness for C6 at concrete arguments: one miss (one sleep of 0.1),
then timeout with revocation, then the timeout exception. -/
theorem C6_blocking_timeout_backoff_witness :
    getRawBlocking 2 ([0] ++ 1 :: []) ⟨some (1 / 2), 23 / 20, 1, true, false, 0⟩
        ⟨[], [], [], 0, []⟩ ⟨"tz", Option.none⟩ =
      ((capSeq (23 / 20) 1 (1 / 10) [(0 : ℚ)].length).map PollEv.psleep ++
        (if true then [.prevoke, .ptimeout] else [.ptimeout]),
       (if true then revokeWrite ⟨[], [], [], 0, []⟩ "tz" else ⟨[], [], [], 0, []⟩),
       ⟨"tz", Option.none⟩) :=
  C6_blocking_timeout_backoff.1 ⟨some (1 / 2), 23 / 20, 1, true, false, 0⟩
    (1 / 2) "tz" [0] 1 [] 2 ⟨[], [], [], 0, []⟩ rfl (by norm_num) rfl
    (by intro u hu; simp at hu; subst hu; norm_num) (by norm_num) (by simp)

/-! ### Digit strings. -/

theorem digitChar_isDigit (d : Nat) (h : d < 10) :
    (digitChar d).isDigit = true := by
  interval_cases d <;> decide

theorem digitVal_digitChar (d : Nat) (h : d < 10) : digitVal (digitChar d) = d := by
  interval_cases d <;> decide

theorem digitChar_ne (d : Nat) (h : d < 10) :
    digitChar d ≠ ',' ∧ digitChar d ≠ '*' ∧ digitChar d ≠ '-' ∧
      digitChar d ≠ '/' := by
  interval_cases d <;> decide

theorem natDigitsAux_acc (fuel : Nat) :
    ∀ (n : Nat) (acc : List Char), n < fuel →
      natDigitsAux fuel n acc = natDigitsAux fuel n [] ++ acc := by
  induction fuel with
  | zero => intro n acc h; omega
  | succ f ih =>
      intro n acc h
      by_cases h10 : n < 10
      · simp [natDigitsAux, h10]
      · have hlt : n / 10 < f := by
          have := Nat.div_lt_self (by omega : 0 < n) (by omega : 1 < 10)
          omega
        simp only [natDigitsAux, h10, if_false]
        rw [ih (n / 10) (digitChar (n % 10) :: acc) hlt,
          ih (n / 10) [digitChar (n % 10)] hlt]
        simp

theorem natDigitsAux_fuel (fuel fuel' : Nat) :
    ∀ (n : Nat), n < fuel → n < fuel' →
      natDigitsAux fuel n [] = natDigitsAux fuel' n [] := by
  induction fuel generalizing fuel' with
  | zero => intro n h; omega
  | succ f ih =>
      intro n h h'
      cases fuel' with
      | zero => omega
      | succ f' =>
          by_cases h10 : n < 10
          · simp [natDigitsAux, h10]
          · have hlt : n / 10 < f := by
              have := Nat.div_lt_self (by omega : 0 < n) (by omega : 1 < 10)
              omega
            have hlt' : n / 10 < f' := by
              have := Nat.div_lt_self (by omega : 0 < n) (by omega : 1 < 10)
              omega
            simp only [natDigitsAux, h10, if_false]
            rw [natDigitsAux_acc f _ _ hlt, natDigitsAux_acc f' _ _ hlt',
              ih f' _ hlt hlt']

theorem natDigits_small (n : Nat) (h : n < 10) : natDigits n = [digitChar n] := by
  simp [natDigits, natDigitsAux, h]

theorem natDigits_step (n : Nat) (h : 10 ≤ n) :
    natDigits n = natDigits (n / 10) ++ [digitChar (n % 10)] := by
  have h10 : ¬ n < 10 := by omega
  have hlt : n / 10 < n := Nat.div_lt_self (by omega) (by omega)
  have e1 : natDigits n = natDigitsAux n (n / 10) [digitChar (n % 10)] := by
    show natDigitsAux (n + 1) n [] = _
    conv_lhs => rw [natDigitsAux]
    rw [if_neg h10]
  rw [e1, natDigitsAux_acc n (n / 10) [digitChar (n % 10)] hlt,
    natDigitsAux_fuel n (n / 10 + 1) (n / 10) hlt (by omega)]
  rfl

theorem natDigits_ne_nil (n : Nat) : natDigits n ≠ [] := by
  by_cases h : n < 10
  · simp [natDigits_small n h]
  · rw [natDigits_step n (by omega)]
    simp

theorem natDigits_all_digit (n : Nat) : ∀ c ∈ natDigits n, c.isDigit = true := by
  induction n using Nat.strong_induction_on with
  | _ n ih =>
      by_cases h : n < 10
      · rw [natDigits_small n h]
        intro c hc
        simp at hc
        subst hc
        exact digitChar_isDigit n h
      · rw [natDigits_step n (by omega)]
        intro c hc
        rcases List.mem_append.mp hc with hc | hc
        · exact ih (n / 10) (Nat.div_lt_self (by omega) (by omega)) c hc
        · simp at hc
          subst hc
          exact digitChar_isDigit _ (Nat.mod_lt _ (by omega))

theorem strToNat_append_one (ds : List Char) (c : Char) :
    strToNat (ds ++ [c]) = strToNat ds * 10 + digitVal c := by
  simp [strToNat, List.foldl_append]

theorem strToNat_natDigits (n : Nat) : strToNat (natDigits n) = n := by
  induction n using Nat.strong_induction_on with
  | _ n ih =>
      by_cases h : n < 10
      · rw [natDigits_small n h]
        simp [strToNat, digitVal_digitChar n h]
      · rw [natDigits_step n (by omega), strToNat_append_one,
          ih (n / 10) (Nat.div_lt_self (by omega) (by omega)),
          digitVal_digitChar _ (Nat.mod_lt _ (by omega))]
        omega

theorem natDigits_no_special (n : Nat) :
    ∀ c ∈ natDigits n, c ≠ ',' ∧ c ≠ '*' ∧ c ≠ '-' ∧ c ≠ '/' := by
  intro c hc
  have hd := natDigits_all_digit n c hc
  refine ⟨?_, ?_, ?_, ?_⟩ <;> (intro he; subst he; simp at hd)

/-! ### takeWhile / dropWhile on digit prefixes. -/

theorem takeWhile_digits_prefix (ds : List Char) (c : Char) (rest : List Char)
    (hds : ∀ x ∈ ds, x.isDigit = true) (hc : c.isDigit = false) :
    (ds ++ c :: rest).takeWhile (·.isDigit) = ds ∧
    (ds ++ c :: rest).dropWhile (·.isDigit) = c :: rest := by
  induction ds with
  | nil => simp [List.takeWhile, List.dropWhile, hc]
  | cons d ds' ih =>
      have hd : d.isDigit = true := hds d (by simp)
      obtain ⟨h1, h2⟩ := ih (fun x hx => hds x (by simp [hx]))
      simp [List.takeWhile, List.dropWhile, hd, h1, h2]

theorem takeWhile_digits_all (ds : List Char)
    (hds : ∀ x ∈ ds, x.isDigit = true) :
    ds.takeWhile (·.isDigit) = ds := by
  induction ds with
  | nil => rfl
  | cons d ds' ih =>
      have hd : d.isDigit = true := hds d (by simp)
      simp [List.takeWhile, hd, ih (fun x hx => hds x (by simp [hx]))]

/-! ### splitComma. -/

theorem splitComma_no_comma (cs : List Char) (h : ∀ c ∈ cs, c ≠ ',') :
    splitComma cs = [cs] := by
  induction cs with
  | nil => rfl
  | cons c cs' ih =>
      have hc : c ≠ ',' := h c (by simp)
      simp only [splitComma, if_neg hc, ih (fun x hx => h x (by simp [hx]))]

theorem splitComma_append (xs ys : List Char) (h : ∀ c ∈ xs, c ≠ ',') :
    splitComma (xs ++ ',' :: ys) = xs :: splitComma ys := by
  induction xs with
  | nil => simp [splitComma]
  | cons c xs' ih =>
      have hc : c ≠ ',' := h c (by simp)
      have ih' := ih (fun x hx => h x (by simp [hx]))
      simp only [List.cons_append, splitComma, if_neg hc]
      rw [show (xs'.append (',' :: ys)) = xs' ++ ',' :: ys from rfl, ih']

/-! ### Python slicing `[::n]` over `range'`. -/

theorem takeEveryAux_fuel (fuel : Nat) :
    ∀ (fuel' n : Nat) (l : List Nat), l.length ≤ fuel → l.length ≤ fuel' →
      takeEveryAux fuel n l = takeEveryAux fuel' n l := by
  induction fuel with
  | zero =>
      intro fuel' n l h h'
      have : l = [] := List.eq_nil_of_length_eq_zero (by omega)
      subst this
      cases fuel' <;> rfl
  | succ f ih =>
      intro fuel' n l h h'
      cases l with
      | nil => cases fuel' <;> rfl
      | cons x xs =>
          cases fuel' with
          | zero => simp at h'
          | succ f' =>
              have hlen : (xs.drop (n - 1)).length ≤ f := by
                have := List.length_drop (n - 1) xs
                simp at h
                omega
              have hlen' : (xs.drop (n - 1)).length ≤ f' := by
                have := List.length_drop (n - 1) xs
                simp at h'
                omega
              simp only [takeEveryAux]
              rw [ih f' n _ hlen hlen']

theorem takeEvery_nil (n : Nat) : takeEvery n [] = [] := rfl

theorem takeEvery_cons (n : Nat) (x : Nat) (xs : List Nat) :
    takeEvery n (x :: xs) = x :: takeEvery n (xs.drop (n - 1)) := by
  simp only [takeEvery, List.length_cons, takeEveryAux]
  rw [takeEveryAux_fuel xs.length (xs.drop (n - 1)).length n _
    (by simpa using List.length_drop (n - 1) xs ▸ Nat.sub_le _ _) (le_refl _)]

theorem drop_range' (m : Nat) :
    ∀ (a len : Nat), (List.range' a len).drop m = List.range' (a + m) (len - m) := by
  induction m with
  | zero => simp
  | succ m' ih =>
      intro a len
      cases len with
      | zero => simp
      | succ l =>
          rw [List.range'_succ]
          simp only [List.drop_succ_cons]
          rw [ih (a + 1) l]
          have e1 : a + 1 + m' = a + (m' + 1) := by omega
          have e2 : l - m' = l + 1 - (m' + 1) := by omega
          rw [e1, e2]

theorem mem_takeEvery_range' (n : Nat) (hn : 1 ≤ n) :
    ∀ (len a x : Nat),
      x ∈ takeEvery n (List.range' a len) ↔
        (a ≤ x ∧ x < a + len ∧ (x - a) % n = 0) := by
  intro len
  induction len using Nat.strong_induction_on with
  | _ len ih =>
      intro a x
      cases len with
      | zero =>
          simp [takeEvery_nil]
          omega
      | succ l =>
          rw [List.range'_succ, takeEvery_cons, drop_range']
          have harith : a + 1 + (n - 1) = a + n := by omega
          rw [harith]
          have hlt : l - (n - 1) < l + 1 := by omega
          rw [List.mem_cons, ih (l - (n - 1)) hlt (a + n) x]
          constructor
          · rintro (rfl | ⟨h1, h2, h3⟩)
            · refine ⟨le_refl _, by omega, by simp⟩
            · refine ⟨by omega, by omega, ?_⟩
              have hdvd : n ∣ (x - (a + n)) := Nat.dvd_of_mod_eq_zero h3
              have hda : n ∣ (x - a) := by
                have hxa : x - a = (x - (a + n)) + n := by omega
                rw [hxa]
                exact Nat.dvd_add hdvd dvd_rfl
              exact Nat.mod_eq_zero_of_dvd hda
          · rintro ⟨h1, h2, h3⟩
            by_cases hx : x = a
            · exact Or.inl hx
            · right
              have hdvd : n ∣ (x - a) := Nat.dvd_of_mod_eq_zero h3
              have hge : n ≤ x - a := Nat.le_of_dvd (by omega) hdvd
              refine ⟨by omega, by omega, ?_⟩
              have hxa : x - (a + n) = (x - a) - n := by omega
              rw [hxa]
              exact Nat.mod_eq_zero_of_dvd (Nat.dvd_sub' hdvd dvd_rfl)

/-! ### Piece parsing facts. -/

theorem digits_prefix_ne_star (ds rest : List Char) (hne : ds ≠ [])
    (hds : ∀ c ∈ ds, c.isDigit = true) : ds ++ rest ≠ ['*'] := by
  cases ds with
  | nil => exact absurd rfl hne
  | cons c ds' =>
      intro h
      simp only [List.cons_append, List.cons.injEq] at h
      have hd := hds c (by simp)
      rw [h.1] at hd
      exact absurd hd (by decide)

theorem natDigits_ne_star (n : Nat) : natDigits n ≠ ['*'] := by
  have := digits_prefix_ne_star (natDigits n) [] (natDigits_ne_nil n)
    (natDigits_all_digit n)
  simpa using this

theorem isDigits_natDigits (n : Nat) : isDigits (natDigits n) = true := by
  simp [isDigits, List.isEmpty_iff, natDigits_ne_nil n, List.all_eq_true]
  exact natDigits_all_digit n

theorem isDigits_false_of_mem (cs : List Char) (c : Char) (hc : c ∈ cs)
    (h : c.isDigit = false) : isDigits cs = false := by
  simp [isDigits, List.all_eq_true]
  intro _
  exact ⟨c, hc, by simp [h]⟩

theorem dashMatch_render (a b : Nat) :
    dashMatch (natDigits a ++ '-' :: natDigits b) = some (a, b) := by
  obtain ⟨h1, h2⟩ := takeWhile_digits_prefix (natDigits a) '-' (natDigits b)
    (natDigits_all_digit a) (by decide)
  have hA : (natDigits a).isEmpty = false := by
    simp [List.isEmpty_iff, natDigits_ne_nil a]
  have hB : (natDigits b).isEmpty = false := by
    simp [List.isEmpty_iff, natDigits_ne_nil b]
  have h3 : (natDigits b).takeWhile (·.isDigit) = natDigits b :=
    takeWhile_digits_all _ (natDigits_all_digit b)
  simp only [dashMatch, h1, h2, h3, hA, hB, Bool.false_eq_true, if_false,
    strToNat_natDigits]

theorem everyMatch_render (n : Nat) :
    everyMatch ('*' :: '/' :: natDigits n) = some n := by
  have hN : (natDigits n).isEmpty = false := by
    simp [List.isEmpty_iff, natDigits_ne_nil n]
  have h3 : (natDigits n).takeWhile (·.isDigit) = natDigits n :=
    takeWhile_digits_all _ (natDigits_all_digit n)
  simp only [everyMatch, h3, hN, Bool.false_eq_true, if_false,
    strToNat_natDigits]

theorem mem_acceptable (f : CronField) (n : Nat) :
    n ∈ f.acceptable ↔ n ∈ f.valid := by
  cases f <;>
    simp [CronField.acceptable, CronField.valid, CronField.isDow, CronField.lo,
      CronField.hi, List.mem_range'_1, List.mem_range, Finset.mem_Icc] <;>
    omega

theorem mem_acceptable_of_domain (f : CronField) (x : Nat)
    (hx : x ∈ Finset.Icc f.lo f.hi) : x ∈ f.acceptable := by
  rw [mem_acceptable]
  cases f <;>
    simp_all [CronField.valid, CronField.isDow, CronField.lo, CronField.hi,
      Finset.mem_Icc] <;> omega

theorem acceptable_eq_range' (f : CronField) (h : f.isDow = false) :
    f.acceptable = List.range' f.lo (f.hi + 1 - f.lo) := by
  cases f <;> simp_all [CronField.isDow, CronField.acceptable, CronField.lo,
    CronField.hi, List.range_eq_range']

theorem range'_toFinset_Icc (a b : Nat) :
    (List.range' a (b + 1 - a)).toFinset = Finset.Icc a b := by
  ext x
  simp [List.mem_range'_1, Finset.mem_Icc]
  omega

theorem render_no_comma (p : Piece) : ∀ c ∈ p.render, c ≠ ',' := by
  cases p with
  | star => intro c hc; simp [Piece.render] at hc; subst hc; decide
  | num n =>
      intro c hc
      exact (natDigits_no_special n c hc).1
  | rng a b =>
      intro c hc
      simp only [Piece.render, List.mem_append, List.mem_cons] at hc
      rcases hc with hc | hc | hc
      · exact (natDigits_no_special a c hc).1
      · subst hc; decide
      · exact (natDigits_no_special b c hc).1
  | every n =>
      intro c hc
      simp only [Piece.render, List.mem_cons] at hc
      rcases hc with hc | hc | hc
      · subst hc; decide
      · subst hc; decide
      · exact (natDigits_no_special n c hc).1

theorem splitComma_renderPieces (ps : List Piece) (hne : ps ≠ []) :
    splitComma (renderPieces ps) = ps.map Piece.render := by
  induction ps with
  | nil => exact absurd rfl hne
  | cons p ps' ih =>
      cases ps' with
      | nil =>
          show splitComma p.render = [p.render]
          exact splitComma_no_comma p.render (render_no_comma p)
      | cons q rest =>
          show splitComma (p.render ++ ',' :: renderPieces (q :: rest)) = _
          rw [splitComma_append p.render _ (render_no_comma p),
            ih (by simp)]
          rfl

/-- Core per-piece lemma: processing the rendered form of a piece agrees
with the claim's enumeration — errors coincide, and on success the built
set is the accumulated set plus the claim's set, up to the field's
domain. -/
theorem processPiece_render (f : CronField) (p : Piece) (s : Finset Nat)
    (hp : goodPiece p) :
    (pieceSpec f p = .error () → processPiece f.isDow f.acceptable s p.render = .error ()) ∧
    (∀ u, pieceSpec f p = .ok u →
      ∃ w, processPiece f.isDow f.acceptable s p.render = .ok w ∧
        ∀ x ∈ Finset.Icc f.lo f.hi, (x ∈ w ↔ x ∈ s ∪ u)) := by
  cases p with
  | star =>
      refine ⟨fun h => by simp [pieceSpec] at h, ?_⟩
      intro u hu
      simp only [pieceSpec, Except.ok.injEq] at hu
      subst hu
      refine ⟨s ∪ f.acceptable.toFinset, by
        show processPiece f.isDow f.acceptable s ['*'] = _
        simp [processPiece], ?_⟩
      intro x hx
      simp [List.mem_toFinset, mem_acceptable_of_domain f x hx, hx]
  | num n =>
      have hnstar : natDigits n ≠ ['*'] := natDigits_ne_star n
      have hdig : isDigits (natDigits n) = true := isDigits_natDigits n
      have hstn : strToNat (natDigits n) = n := strToNat_natDigits n
      by_cases hv : n ∈ f.valid
      · refine ⟨fun h => by simp [pieceSpec, hv] at h, ?_⟩
        intro u hu
        simp only [pieceSpec, hv, if_true, Except.ok.injEq] at hu
        subst hu
        refine ⟨insert (if f.isDow then n % 7 else n) s, ?_, ?_⟩
        · show processPiece f.isDow f.acceptable s (natDigits n) = _
          simp [processPiece, hnstar, hdig, hstn, mem_acceptable, hv]
        · intro x hx
          simp [normF, Finset.mem_insert, Or.comm]
      · refine ⟨?_, ?_⟩
        · intro _
          show processPiece f.isDow f.acceptable s (natDigits n) = _
          simp [processPiece, hnstar, hdig, hstn, mem_acceptable, hv]
        · intro u hu
          simp [pieceSpec, hv] at hu
  | rng a b =>
      have hnstar : natDigits a ++ '-' :: natDigits b ≠ ['*'] :=
        digits_prefix_ne_star (natDigits a) _ (natDigits_ne_nil a)
          (natDigits_all_digit a)
      have hdig : isDigits (natDigits a ++ '-' :: natDigits b) = false :=
        isDigits_false_of_mem _ '-' (by simp) (by decide)
      have hdash : dashMatch (natDigits a ++ '-' :: natDigits b) = some (a, b) :=
        dashMatch_render a b
      by_cases hv : a ∈ f.valid ∧ b ∈ f.valid
      · refine ⟨fun h => by simp [pieceSpec, hv] at h, ?_⟩
        intro u hu
        have hu2 : Finset.Icc (normF f a) (normF f b) = u := by
          simpa [pieceSpec, hv] using hu
        subst hu2
        refine ⟨s ∪ (List.range' (if f.isDow then a % 7 else a)
          ((if f.isDow then b % 7 else b) + 1 - (if f.isDow then a % 7 else a))).toFinset, ?_, ?_⟩
        · show processPiece f.isDow f.acceptable s (natDigits a ++ '-' :: natDigits b) = _
          simp [processPiece, hnstar, hdig, hdash, mem_acceptable, hv.1, hv.2]
        · intro x hx
          rw [range'_toFinset_Icc]
          simp [normF]
      · refine ⟨?_, ?_⟩
        · intro _
          show processPiece f.isDow f.acceptable s (natDigits a ++ '-' :: natDigits b) = _
          have hcond : (a ∉ f.acceptable ∨ b ∉ f.acceptable) := by
            rcases not_and_or.mp hv with h | h
            · exact Or.inl (by simpa [mem_acceptable] using h)
            · exact Or.inr (by simpa [mem_acceptable] using h)
          simp [processPiece, hnstar, hdig, hdash, hcond]
        · intro u hu
          simp [pieceSpec, hv] at hu
  | every n =>
      have hn : 1 ≤ n := hp
      have hnstar : '*' :: '/' :: natDigits n ≠ ['*'] := by simp
      have hdig : isDigits ('*' :: '/' :: natDigits n) = false :=
        isDigits_false_of_mem _ '*' (by simp) (by decide)
      have hdash : dashMatch ('*' :: '/' :: natDigits n) = Option.none := by
        simp [dashMatch, List.takeWhile]
      have hev : everyMatch ('*' :: '/' :: natDigits n) = some n :=
        everyMatch_render n
      have hn0 : n ≠ 0 := by omega
      by_cases hdow : f.isDow
      · refine ⟨?_, ?_⟩
        · intro _
          show processPiece f.isDow f.acceptable s ('*' :: '/' :: natDigits n) = _
          simp [processPiece, hnstar, hdig, hdash, hev, hdow]
        · intro u hu
          simp [pieceSpec, hdow] at hu
      · refine ⟨fun h => by simp [pieceSpec, hdow] at h, ?_⟩
        intro u hu
        simp only [pieceSpec, hdow, Bool.false_eq_true, if_false,
          Except.ok.injEq] at hu
        subst hu
        refine ⟨s ∪ (takeEvery n f.acceptable).toFinset, ?_, ?_⟩
        · show processPiece f.isDow f.acceptable s ('*' :: '/' :: natDigits n) = _
          simp [processPiece, hnstar, hdig, hdash, hev, hdow, hn0]
        · intro x hx
          have hdowf : f.isDow = false := by simpa using hdow
          rw [acceptable_eq_range' f hdowf]
          have hm := mem_takeEvery_range' n hn (f.hi + 1 - f.lo) f.lo x
          have hlohi : f.lo ≤ f.hi := by
            cases f <;> simp [CronField.lo, CronField.hi]
          simp only [Finset.mem_union, List.mem_toFinset, hm,
            Finset.mem_filter, Finset.mem_Icc]
          constructor
          · rintro (h | ⟨h1, h2, h3⟩)
            · exact Or.inl h
            · exact Or.inr ⟨⟨h1, by omega⟩, h3⟩
          · rintro (h | ⟨⟨h1, h2⟩, h3⟩)
            · exact Or.inl h
            · exact Or.inr ⟨h1, by omega, h3⟩

theorem foldlM_equiv (f : CronField) :
    ∀ (ps : List Piece) (s u : Finset Nat),
      (∀ p ∈ ps, goodPiece p) →
      (∀ x ∈ Finset.Icc f.lo f.hi, (x ∈ s ↔ x ∈ u)) →
      fieldEquiv f
        ((ps.map Piece.render).foldlM (processPiece f.isDow f.acceptable) s)
        (ps.foldlM (fun t p => (pieceSpec f p).map (t ∪ ·)) u) := by
  intro ps
  induction ps with
  | nil =>
      intro s u _ hsu
      simpa [fieldEquiv, pure, Except.pure] using hsu
  | cons p ps' ih =>
      intro s u hgood hsu
      obtain ⟨herr, hok⟩ := processPiece_render f p s (hgood p (by simp))
      cases hps : pieceSpec f p with
      | error e =>
          have h1 : processPiece f.isDow f.acceptable s p.render = .error () := by
            apply herr
            rw [hps]
          simp [List.foldlM_cons, h1, hps, fieldEquiv, Except.map, bind,
            Except.bind]
      | ok v =>
          obtain ⟨w, hw, hwm⟩ := hok v hps
          have hsu' : ∀ x ∈ Finset.Icc f.lo f.hi, (x ∈ w ↔ x ∈ u ∪ v) := by
            intro x hx
            rw [hwm x hx]
            simp [Finset.mem_union, hsu x hx]
          have := ih w (u ∪ v) (fun q hq => hgood q (by simp [hq])) hsu'
          simpa [List.foldlM_cons, hw, hps, Except.map, bind, Except.bind]
            using this

theorem buildField_renderPieces (f : CronField) (ps : List Piece)
    (hps : ∀ p ∈ ps, goodPiece p) :
    fieldEquiv f (buildField f.isDow f.acceptable (renderPieces ps))
      (specField f ps) := by
  cases ps with
  | nil =>
      show fieldEquiv f (buildField f.isDow f.acceptable []) (specField f [])
      simp [buildField, splitComma, specField, fieldEquiv, processPiece,
        isDigits, dashMatch, everyMatch, pure, Except.pure, bind, Except.bind]
  | cons p rest =>
      show fieldEquiv f _ _
      simp only [buildField, specField,
        splitComma_renderPieces (p :: rest) (by simp)]
      exact foldlM_equiv f (p :: rest) ∅ ∅ hps (by simp)

theorem buildField_int_nonneg (f : CronField) (n : Nat) :
    buildField f.isDow f.acceptable (intToStr (n : Int)) =
      if n ∈ f.valid then .ok {normF f n} else .error () := by
  have h0 : ¬ ((n : Int) < 0) := not_lt.mpr (Int.natCast_nonneg n)
  have hstr : intToStr (n : Int) = natDigits n := by
    simp [intToStr, h0]
  have hsplit : splitComma (natDigits n) = [natDigits n] :=
    splitComma_no_comma _ (fun c hc => (natDigits_no_special n c hc).1)
  have hnstar : natDigits n ≠ ['*'] := natDigits_ne_star n
  have hdig : isDigits (natDigits n) = true := isDigits_natDigits n
  have hstn : strToNat (natDigits n) = n := strToNat_natDigits n
  rw [hstr]
  simp only [buildField, hsplit, List.foldlM_cons, List.foldlM_nil]
  by_cases hv : n ∈ f.valid
  · simp [processPiece, hnstar, hdig, hstn, mem_acceptable, hv, normF]
  · simp [processPiece, hnstar, hdig, hstn, mem_acceptable, hv]

theorem buildField_int_neg (f : CronField) (m : Int) (hm : m < 0) :
    buildField f.isDow f.acceptable (intToStr m) = .ok ∅ := by
  have hstr : intToStr m = '-' :: natDigits m.natAbs := by
    simp [intToStr, hm]
  have hsplit : splitComma ('-' :: natDigits m.natAbs) =
      [('-' :: natDigits m.natAbs)] :=
    splitComma_no_comma _ (by
      intro c hc
      rcases List.mem_cons.mp hc with hc | hc
      · subst hc; decide
      · exact (natDigits_no_special m.natAbs c hc).1)
  have hdig : isDigits ('-' :: natDigits m.natAbs) = false :=
    isDigits_false_of_mem _ '-' (by simp) (by decide)
  rw [hstr]
  simp only [buildField, hsplit, List.foldlM_cons, List.foldlM_nil]
  simp [processPiece, hdig, dashMatch, everyMatch, List.takeWhile]

/-- Counterexample to claim C5 as stated: the out-of-domain integer `-1`
as the minute field does not raise `ValueError` at build time — `str(-1)`
is `"-1"`, which matches none of the piece forms and is silently
ignored, so `crontab` succeeds (with an empty minute set). -/
theorem C5_out_of_domain_counterexample :
    (crontab (CronArg.i (-1)) (CronArg.s ['*']) (CronArg.s ['*'])
      (CronArg.s ['*']) (CronArg.s ['*'])).isOk = true := by decide

/-- Claim C5, amended: for each cron field, the parser builds exactly the
claim's enumerated acceptance set over the field's domain — `*` the whole
domain, an in-domain integer its (day-of-week-normalized) singleton,
`m-n` the interval between normalized endpoints, `*/n` every `n`-th
element of the domain, comma lists the union; `*/n` on day-of-week and an
out-of-domain **nonnegative** integer raise `ValueError` at build time,
while a **negative** integer is silently ignored and contributes nothing
(the uncorrected claim said every out-of-domain integer raises); the
returned predicate holds iff every timetuple component lies in its set;
and `crontab` succeeds exactly when all five fields build, with the built
sets as its components. -/
theorem C5_crontab_field_semantics :
    (∀ (f : CronField) (ps : List Piece), (∀ p ∈ ps, goodPiece p) →
      fieldEquiv f (buildField f.isDow f.acceptable (renderPieces ps))
        (specField f ps)) ∧
    (∀ (f : CronField) (n : Nat), n ∈ f.valid →
      buildField f.isDow f.acceptable (intToStr (n : Int)) = .ok {normF f n}) ∧
    (∀ (f : CronField) (n : Nat), n ∉ f.valid →
      buildField f.isDow f.acceptable (intToStr (n : Int)) = .error ()) ∧
    (∀ (f : CronField) (m : Int), m < 0 →
      buildField f.isDow f.acceptable (intToStr m) = .ok ∅) ∧
    (∀ (cs : CronSpec) (mon mday hour minute wday : Nat),
      validateDate cs mon mday hour minute wday = true ↔
        (mon ∈ cs.months ∧ mday ∈ cs.days ∧ (wday + 1) % 7 ∈ cs.dows ∧
          hour ∈ cs.hours ∧ minute ∈ cs.minutes)) ∧
    (∀ (mi hr dy mo dw : CronArg) (cs : CronSpec),
      crontab mi hr dy mo dw = .ok cs →
      ∀ f : CronField, buildField f.isDow f.acceptable
          (cronArgStr (argOf mi hr dy mo dw f)) = .ok (fieldOf cs f)) ∧
    (∀ (mi hr dy mo dw : CronArg),
      (crontab mi hr dy mo dw).isOk =
        ((buildField false (List.range' 1 12) (cronArgStr mo)).isOk &&
          ((buildField false (List.range' 1 31) (cronArgStr dy)).isOk &&
            ((buildField true (List.range 8) (cronArgStr dw)).isOk &&
              ((buildField false (List.range 24) (cronArgStr hr)).isOk &&
                (buildField false (List.range 60) (cronArgStr mi)).isOk))))) := by
  refine ⟨buildField_renderPieces, ?_, ?_, buildField_int_neg, ?_, ?_, ?_⟩
  · intro f n hv
    rw [buildField_int_nonneg f n, if_pos hv]
  · intro f n hv
    rw [buildField_int_nonneg f n, if_neg hv]
  · intro cs mon mday hour minute wday
    simp [validateDate, Bool.and_eq_true, decide_eq_true_eq, and_assoc]
  · intro mi hr dy mo dw cs h
    rcases hmo : buildField false (List.range' 1 12) (cronArgStr mo) with e | m
    · simp [crontab, hmo, bind, Except.bind] at h
    rcases hdy : buildField false (List.range' 1 31) (cronArgStr dy) with e | d
    · simp [crontab, hmo, hdy, bind, Except.bind] at h
    rcases hw : buildField true (List.range 8) (cronArgStr dw) with e | w
    · simp [crontab, hmo, hdy, hw, bind, Except.bind] at h
    rcases hhr : buildField false (List.range 24) (cronArgStr hr) with e | hh
    · simp [crontab, hmo, hdy, hw, hhr, bind, Except.bind] at h
    rcases hmi : buildField false (List.range 60) (cronArgStr mi) with e | mm
    · simp [crontab, hmo, hdy, hw, hhr, hmi, bind, Except.bind] at h
    have hcs : cs = ⟨m, d, w, hh, mm⟩ := by
      simp [crontab, hmo, hdy, hw, hhr, hmi, bind, Except.bind, pure,
        Except.pure] at h
      exact h.symm
    subst hcs
    intro f
    cases f <;> simp [fieldOf, argOf, CronField.isDow, CronField.acceptable,
      hmo, hdy, hw, hhr, hmi]
  · intro mi hr dy mo dw
    rcases hmo : buildField false (List.range' 1 12) (cronArgStr mo) with e | m <;>
      rcases hdy : buildField false (List.range' 1 31) (cronArgStr dy) with e | d <;>
        rcases hw : buildField true (List.range 8) (cronArgStr dw) with e | w <;>
          rcases hhr : buildField false (List.range 24) (cronArgStr hr) with e | hh <;>
            rcases hmi : buildField false (List.range 60) (cronArgStr mi) with e | mm <;>
              simp [crontab, hmo, hdy, hw, hhr, hmi, bind, Except.bind, pure,
                Except.pure, Except.isOk, Except.toBool]

/-- Witness for the amended C5: the minute field `*/15` builds exactly
the claim's every-15th-minute set. -/
theorem C5_crontab_field_semantics_witness :
    fieldEquiv CronField.minute
      (buildField CronField.minute.isDow CronField.minute.acceptable
        (renderPieces [Piece.every 15]))
      (specField CronField.minute [Piece.every 15]) :=
  C5_crontab_field_semantics.1 CronField.minute [Piece.every 15]
    (by
      intro p hp
      simp at hp
      subst hp
      decide)

end HueySpec

